import Mathlib

/-!
Possible-CPU count of a Linux host (`internal/linux/cpu.go`).

A shallow embedding of `FindPossibleCPUs`, `getCPUsNproc`, `parseCPUsFromFile`
and `parseCPUs`, together with the parts of the Go standard library they call
(`strings.Trim`, `strconv.Atoi`, `fmt.Sscanf`), followed by theorems about them.

Conventions of the embedding:

* a Go `string` is given as the list of its runes (`Str`), which is how the
  scanner of package fmt reads it; package strconv reads bytes, and a rune outside
  ASCII stands there for its UTF-8 bytes, none of which is a digit or a sign;
* a Go `int` is an `Int` kept inside `intSize` bits (32 or 64, the width of the
  platform) by `wrapInt`;
* a Go result `(int, error)` is a pair `Int × Option GoError`, `none` being `nil`;
* the file system and the `nproc` command are explicit inputs (`Host`).
-/

namespace Linux

/-- A Go string, as the list of its runes. -/
abbrev Str := List Char

/-- The sentinel errors of `strconv`: `ErrSyntax` and `ErrRange`. -/
inductive NumCause
  | ErrSyntax
  | ErrRange
deriving DecidableEq, Repr

/-- Go error values that reach this package.
`errorString text` is what `errors.New` and `fmt.Errorf` build;
`errorStringV text v` is the value of `fmt.Errorf` whose text is `text` followed by
the `%v` rendering of the error `v`; `EOF` and `ErrUnexpectedEOF` are the `io`
sentinels; `NumError` is `*strconv.NumError`; `osError` stands for an error
handed over by `os` or `os/exec`, with its errno (2 is ENOENT) and its text. -/
inductive GoError
  | errorString (text : Str)
  | errorStringV (text : Str) (v : GoError)
  | EOF
  | ErrUnexpectedEOF
  | NumError (Func Num : Str) (Err : NumCause)
  | osError (errno : Nat) (text : Str)
deriving DecidableEq, Repr

/-- The constant `possibleCPUsFile`. -/
def possibleCPUsFile : Str := "/sys/devices/system/cpu/possible".toList

/-- Conversion of an integer to a signed machine integer of `bits` bits
(two's complement wrap-around). -/
def wrapInt (bits : Nat) (x : Int) : Int :=
  (x + ((2 ^ (bits - 1) : Nat) : Int)) % ((2 ^ bits : Nat) : Int) - ((2 ^ (bits - 1) : Nat) : Int)

/-! ## strings.Trim -/

/-- The function `strings.Trim(s, cutset)`: all leading and trailing runes contained in
`cutset` removed (right side first, as `trimLeftByte(trimRightByte(s, c), c)`). -/
def Trim (s cutset : Str) : Str :=
  (s.rdropWhile (fun r => cutset.contains r)).dropWhile (fun r => cutset.contains r)

/-! ## strconv.ParseUint, strconv.ParseInt, strconv.Atoi (base 10) -/

/-- The value `maxUint64`. -/
def maxUint64 : Nat := 2 ^ 64 - 1

/-- The helper `syntaxError(fn, str)` of strconv. -/
def syntaxError (fn str : Str) : GoError := .NumError fn str .ErrSyntax

/-- The helper `rangeError(fn, str)` of strconv. -/
def rangeError (fn str : Str) : GoError := .NumError fn str .ErrRange

/-- The digit loop of `strconv.ParseUint(s, 10, bitSize)` over the bytes of `s`, with
`n` the `uint64` accumulator. A byte outside `'0'..'9'` is a syntax error in base 10
(a letter gives a digit value of at least 10, which is not below the base; an
underscore is only allowed for base 0). `cutoff` is `maxUint64/10 + 1`, and the
arithmetic is that of `uint64`. -/
def ParseUintLoop (s0 : Str) (maxVal : Nat) : Nat → Str → Nat × Option GoError
  | n, [] => (n, none)
  | n, c :: cs =>
    if '0'.toNat ≤ c.toNat && c.toNat ≤ '9'.toNat then
      let d := c.toNat - '0'.toNat
      if n ≥ maxUint64 / 10 + 1 then
        (maxVal, some (rangeError "ParseUint".toList s0))
      else
        let n10 := n * 10 % 2 ^ 64
        let n1 := (n10 + d) % 2 ^ 64
        if n1 < n10 || n1 > maxVal then
          (maxVal, some (rangeError "ParseUint".toList s0))
        else
          ParseUintLoop s0 maxVal n1 cs
    else
      (0, some (syntaxError "ParseUint".toList s0))

/-- The function `strconv.ParseUint(s, 10, bitSize)` for `bitSize` between 1 and 64. -/
def ParseUint (s : Str) (bitSize : Nat) : Nat × Option GoError :=
  if s = [] then
    (0, some (syntaxError "ParseUint".toList s))
  else
    ParseUintLoop s (2 ^ bitSize - 1) 0 s

/-- The function `strconv.ParseInt(s, 10, bitSize)` for `bitSize` between 1 and 64
(a caller passing 0 passes the platform's `IntSize` here). The value is an `int64`. -/
def ParseInt (s : Str) (bitSize : Nat) : Int × Option GoError :=
  if s = [] then
    (0, some (syntaxError "ParseInt".toList s))
  else
    let s0 := s
    let neg := s.head? == some '-'
    let s := if s.head? == some '+' || s.head? == some '-' then s.tail else s
    match ParseUint s bitSize with
    | (_, some (.NumError _ _ .ErrSyntax)) => (0, some (syntaxError "ParseInt".toList s0))
    | (un, _) =>
      let cutoff := 2 ^ (bitSize - 1)
      if !neg && un ≥ cutoff then
        (((cutoff - 1 : Nat) : Int), some (rangeError "ParseInt".toList s0))
      else if neg && un > cutoff then
        (-((cutoff : Nat) : Int), some (rangeError "ParseInt".toList s0))
      else
        let n := wrapInt 64 (un : Int)
        (if neg then wrapInt 64 (-n) else n, none)

/-- The fast path of `strconv.Atoi`: the digit loop over a string too short to overflow. -/
def AtoiLoop : Int → Str → Option Int
  | n, [] => some n
  | n, ch :: rest =>
    if '0'.toNat ≤ ch.toNat && ch.toNat - '0'.toNat ≤ 9 then
      AtoiLoop (n * 10 + ((ch.toNat - '0'.toNat : Nat) : Int)) rest
    else
      none

/-- The built-in `len` of a string: its length in bytes, the string being UTF-8. -/
def len (s : Str) : Nat := s.foldl (fun n r => n + r.utf8Size) 0

/-- The function `strconv.Atoi(s)` on a platform whose `int` has `intSize` bits. -/
def Atoi (intSize : Nat) (s : Str) : Int × Option GoError :=
  let sLen := len s
  if (intSize == 32 && (0 < sLen && sLen < 10)) || (intSize == 64 && (0 < sLen && sLen < 19)) then
    let s0 := s
    let signed := s.head? == some '-' || s.head? == some '+'
    let s := if signed then s.tail else s
    if signed && len s < 1 then
      (0, some (syntaxError "Atoi".toList s0))
    else
      match AtoiLoop 0 s with
      | none => (0, some (syntaxError "Atoi".toList s0))
      | some n => (if s0.head? == some '-' then -n else n, none)
  else
    match ParseInt s intSize with
    | (i64, some (.NumError _ num cause)) => (wrapInt intSize i64, some (.NumError "Atoi".toList num cause))
    | (i64, err) => (wrapInt intSize i64, err)

/-! ## fmt.Sscanf with the format "%d-%d\n" -/

/-- The table `space` of package fmt: the ranges of the space runes. -/
def space : List (Nat × Nat) :=
  [(0x0009, 0x000d), (0x0020, 0x0020), (0x0085, 0x0085), (0x00a0, 0x00a0), (0x1680, 0x1680),
   (0x2000, 0x200a), (0x2028, 0x2029), (0x202f, 0x202f), (0x205f, 0x205f), (0x3000, 0x3000)]

/-- The loop of `isSpace` over the table. -/
def isSpaceLoop (rx : Nat) : List (Nat × Nat) → Bool
  | [] => false
  | rng :: rest =>
    if rx < rng.1 then false
    else if rx ≤ rng.2 then true
    else isSpaceLoop rx rest

/-- The function `isSpace(r)` of package fmt. -/
def isSpace (r : Char) : Bool :=
  if r.toNat ≥ 2 ^ 16 then false else isSpaceLoop r.toNat space

/-- The constant `decimalDigits`. -/
def decimalDigits : Str := "0123456789".toList

/-- The constant `sign`. -/
def sign : Str := "+-".toList

/-- The method `ss.peek(ok)`: whether the next rune of the input is in `ok`. -/
def peek (ok : Str) : Str → Bool
  | [] => false
  | r :: _ => ok.contains r

/-- The method `ss.SkipSpace` of a scanner made by `Sscanf` (`nlIsSpace` is false):
the input left, or the error raised on a newline. -/
def SkipSpace : Str → Except GoError Str
  | [] => .ok []
  | r :: rest =>
    if r == '\r' && peek "\n".toList rest then
      SkipSpace rest
    else if r == '\n' then
      .error (.errorString "unexpected newline".toList)
    else if !isSpace r then
      .ok (r :: rest)
    else
      SkipSpace rest

/-- The method `ss.notEOF`: raises `io.EOF` when no rune is left. -/
def notEOF : Str → Except GoError Unit
  | [] => .error .EOF
  | _ :: _ => .ok ()

/-- The method `ss.accept(ok)` on the token buffer `buf` and the input: whether the next
rune is in `ok`, the buffer (the rune appended when it is) and the input left. -/
def accept (ok : Str) (buf : Str) : Str → Bool × Str × Str
  | [] => (false, buf, [])
  | r :: rest => if ok.contains r then (true, buf ++ [r], rest) else (false, buf, r :: rest)

/-- The loop `for s.accept(digits) {}` of `ss.scanNumber`. -/
def acceptLoop (ok : Str) : Str → Str → Str × Str
  | buf, [] => (buf, [])
  | buf, r :: rest => if ok.contains r then acceptLoop ok (buf ++ [r]) rest else (buf, r :: rest)

/-- The method `ss.scanNumber(digits, false)`: the token and the input left. -/
def scanNumber (digits : Str) (buf input : Str) : Except GoError (Str × Str) :=
  match notEOF input with
  | .error e => .error e
  | .ok _ =>
    match accept digits buf input with
    | (false, _, _) => .error (.errorString "expected integer".toList)
    | (true, buf, input) => .ok (acceptLoop digits buf input)

/-- The end of `ss.scanInt`: the token goes through `strconv.ParseInt(tok, 10, 64)` and the
value must then fit `bitSize` bits (`x := (i << (64 - n)) >> (64 - n); x != i` is an
overflow). -/
def convertToken (bitSize : Nat) (tok input : Str) : Except GoError (Int × Str) :=
  match ParseInt tok 64 with
  | (_, some err) => .error err
  | (i, none) =>
    if wrapInt bitSize i != i then
      .error (.errorString ("integer overflow on token ".toList ++ tok))
    else
      .ok (i, input)

/-- The method `ss.scanInt('d', bitSize)` as called by `scanOne` (which empties the token
buffer first): the integer read and the input left. -/
def scanInt (bitSize : Nat) (input : Str) : Except GoError (Int × Str) :=
  match SkipSpace input with
  | .error e => .error e
  | .ok input =>
    match notEOF input with
    | .error e => .error e
    | .ok _ =>
      match accept sign [] input with
      | (_, buf, input) =>
        match scanNumber decimalDigits buf input with
        | .error e => .error e
        | .ok (tok, input) => convertToken bitSize tok input

/-- The method `ss.advance` on a format that starts with the literal rune `fmtc` followed
by a verb: the literal must be the next rune of the input. -/
def advanceLiteral (fmtc : Char) : Str → Except GoError Str
  | [] => .error .ErrUnexpectedEOF
  | inputc :: rest =>
    if fmtc != inputc then
      .error (.errorString "input does not match format".toList)
    else
      .ok rest

/-- The method `ss.advance` on the format "\n" (one newline, no trailing space): zero or
more spaces of the input and then a newline or the end of the input. -/
def advanceNewline : Str → Except GoError Str
  | [] => .ok []
  | inputc :: rest =>
    if isSpace inputc && inputc != '\n' then
      advanceNewline rest
    else if inputc != '\n' then
      .error (.errorString "newline in format does not match input".toList)
    else
      .ok rest

/-- What `fmt.Sscanf(str, "%d-%d\n", &low, &high)` leaves behind: the count `n` of operands
stored, the error, and the values of `low` and `high` (both start at 0). -/
structure ScanResult where
  n : Nat
  err : Option GoError
  low : Int
  high : Int
deriving DecidableEq, Repr

/-- The method `ss.doScanf` on the format "%d-%d\n" with two `*int` operands, the loop over
the format unrolled: verb `%d` (skip spaces, scan an `int`), the literal "-", verb `%d`,
and the newline. -/
def doScanf (intSize : Nat) (str : Str) : ScanResult :=
  match SkipSpace str with
  | .error e => ⟨0, some e, 0, 0⟩
  | .ok s1 =>
    match scanInt intSize s1 with
    | .error e => ⟨0, some e, 0, 0⟩
    | .ok (low, s2) =>
      match advanceLiteral '-' s2 with
      | .error e => ⟨1, some e, wrapInt intSize low, 0⟩
      | .ok s3 =>
        match SkipSpace s3 with
        | .error e => ⟨1, some e, wrapInt intSize low, 0⟩
        | .ok s4 =>
          match scanInt intSize s4 with
          | .error e => ⟨1, some e, wrapInt intSize low, 0⟩
          | .ok (high, s5) =>
            match advanceNewline s5 with
            | .error e => ⟨2, some e, wrapInt intSize low, wrapInt intSize high⟩
            | .ok _ => ⟨2, none, wrapInt intSize low, wrapInt intSize high⟩

/-- The constant `hugeWid` of package fmt, the limit of a scanner without a width. -/
def hugeWid : Nat := 2 ^ 30

/-- The function `fmt.Sscanf(str, "%d-%d\n", &low, &high)`. The scanner counts the runes it
consumes and `ss.ReadRune` reports `io.EOF` once the count reaches `hugeWid`: the scan sees
the first `hugeWid` runes of `str` and then the end of the input. -/
def Sscanf (intSize : Nat) (str : Str) : ScanResult :=
  doScanf intSize (str.take hugeWid)

/-! ## The package -/

/-- The function `parseCPUs` of `internal/linux/cpu.go`. -/
def parseCPUs (intSize : Nat) (spec : Str) : Int × Option GoError :=
  if Trim spec "\n".toList == "0".toList then
    (1, none)
  else
    let r := Sscanf intSize spec
    if r.n != 2 || r.err != none then
      (0, some (.errorString ("invalid format: ".toList ++ spec)))
    else if r.low != 0 then
      (0, some (.errorString ("CPU spec doesn't start at zero: ".toList ++ spec)))
    else
      (wrapInt intSize (r.high + 1), none)

/-- The outside world of one call: the outcome of `os.Stat(path)` (its error), of
`os.ReadFile(path)` (content and error) and of `exec.Command("nproc", "--all").Output()`
(standard output and error). -/
structure Host where
  Stat : Str → Option GoError
  ReadFile : Str → Str × Option GoError
  nprocOutput : Str × Option GoError

/-- The function `parseCPUsFromFile` of `internal/linux/cpu.go`. -/
def parseCPUsFromFile (intSize : Nat) (host : Host) (path : Str) : Int × Option GoError :=
  match host.ReadFile path with
  | (_, some err) => (0, some err)
  | (spec, none) =>
    match parseCPUs intSize spec with
    | (_, some err) => (0, some (.errorStringV ("can't parse ".toList ++ path ++ ": ".toList) err))
    | (n, none) => (n, none)

/-- The function `getCPUsNproc` of `internal/linux/cpu.go`. -/
def getCPUsNproc (intSize : Nat) (host : Host) : Int × Option GoError :=
  match host.nprocOutput with
  | (_, some err) => (0, some err)
  | (output, none) => Atoi intSize (Trim output "\n".toList)

/-- The function `FindPossibleCPUs` of `internal/linux/cpu.go`. -/
def FindPossibleCPUs (intSize : Nat) (host : Host) : Int × Option GoError :=
  match host.Stat possibleCPUsFile with
  | none => parseCPUsFromFile intSize host possibleCPUsFile
  | some _ => getCPUsNproc intSize host

/-! ## Decimal renderings (the words of the claims) -/

/-- The decimal digits of a natural number, most significant first, without leading
zeros (the rendering of `Nat.repr`). -/
def decimal (n : Nat) : Str := Nat.toDigits 10 n

/-- The number a run of decimal digits denotes when it continues the number `acc`. -/
def digitsVal (acc : Nat) (ds : Str) : Nat :=
  ds.foldl (fun a c => a * 10 + (c.toNat - 48)) acc

/-- A run of ASCII decimal digits. -/
def IsDigits (ds : Str) : Prop := ∀ c ∈ ds, decimalDigits.contains c = true

/-- An entry of a kernel bitmap list: a single CPU number or a range of CPU numbers. -/
inductive Region
  | single (n : Nat)
  | range (lo hi : Nat)

/-- The text of an entry: "n" or "lo-hi". -/
def Region.render : Region → Str
  | .single n => decimal n
  | .range lo hi => decimal lo ++ '-' :: decimal hi

/-- The text of a bitmap list: its entries separated by commas. -/
def bitmapList : List Region → Str
  | [] => []
  | [r] => r.render
  | r :: r2 :: rs => r.render ++ ',' :: bitmapList (r2 :: rs)

/-- The optional trailing newline of an input. -/
def optNewline (nl : Bool) : Str := if nl then "\n".toList else []

/-- A host without the possible-CPUs file (`os.Stat` and `os.ReadFile` fail with ENOENT)
on which `nproc --all` prints "8". -/
def hostWithoutFile : Host where
  Stat := fun _ => some (.osError 2 "no such file or directory".toList)
  ReadFile := fun _ => ([], some (.osError 2 "no such file or directory".toList))
  nprocOutput := ("8\n".toList, none)

/-- A host on which the possible-CPUs file exists but cannot be reached (`os.Stat` and
`os.ReadFile` fail with EACCES) and on which `nproc --all` prints "8". -/
def hostDenied : Host where
  Stat := fun _ => some (.osError 13 "permission denied".toList)
  ReadFile := fun _ => ([], some (.osError 13 "permission denied".toList))
  nprocOutput := ("8\n".toList, none)

/-- A host on which the possible-CPUs file is present and holds `content`, and on which
`nproc --all` prints "8". -/
def hostWithContent (content : Str) : Host where
  Stat := fun _ => none
  ReadFile := fun _ => (content, none)
  nprocOutput := ("8\n".toList, none)

/-- A host on which `os.Stat` of the possible-CPUs file succeeds and `os.ReadFile` fails
with EIO, and on which `nproc --all` prints "8". -/
def hostUnreadable : Host where
  Stat := fun _ => none
  ReadFile := fun _ => ([], some (.osError 5 "input/output error".toList))
  nprocOutput := ("8\n".toList, none)

/-- A space rune other than the newline (the runes the scanner skips in front of a number
and in front of the newline that ends the format). -/
def isBlank (r : Char) : Bool := isSpace r && r != '\n'

/-- A run of space runes other than the newline. -/
def IsBlanks (b : Str) : Prop := ∀ c ∈ b, isBlank c = true

/-- An optional sign: nothing, "+" or "-". -/
def IsSignOpt (g : Str) : Prop := g = [] ∨ g = ['+'] ∨ g = ['-']

/-- The integer an optional sign `g` and a run of digits `d` denote. -/
def signedVal (g d : Str) : Int :=
  if g = ['-'] then -((digitsVal 0 d : Nat) : Int) else ((digitsVal 0 d : Nat) : Int)

/-- Whether the integer `x` fits a Go `int` of `bits` bits. -/
def fitsInt (bits : Nat) (x : Int) : Bool :=
  decide (-((2 ^ (bits - 1) : Nat) : Int) ≤ x) && decide (x < ((2 ^ (bits - 1) : Nat) : Int))

/-- The text "low-high" of two decimal integers, each an optional sign and digits, with an
optional trailing newline. -/
def signedRange (g1 d1 g2 d2 : Str) (nl : Bool) : Str :=
  g1 ++ d1 ++ "-".toList ++ g2 ++ d2 ++ optNewline nl

/-- The first form `parseCPUs` accepts: "0" between newline characters only. -/
def IsZeroForm (spec : Str) : Prop :=
  ∃ a b : Nat, spec = List.replicate a '\n' ++ '0' :: List.replicate b '\n'

/-- The second form `parseCPUs` can accept, the one of the scan "%d-%d\n": blanks, an
optional sign and digits; the '-'; blanks, an optional sign and digits; blanks; and then the
end of the input or a newline followed by anything. -/
def IsRangeForm (spec : Str) : Prop :=
  ∃ b1 g1 d1 b2 g2 d2 b3 rest : Str,
    spec = b1 ++ g1 ++ d1 ++ '-' :: (b2 ++ g2 ++ d2 ++ (b3 ++ rest)) ∧
      IsBlanks b1 ∧ IsSignOpt g1 ∧ IsDigits d1 ∧ d1 ≠ [] ∧
      IsBlanks b2 ∧ IsSignOpt g2 ∧ IsDigits d2 ∧ d2 ≠ [] ∧
      IsBlanks b3 ∧ (rest = [] ∨ rest.head? = some '\n')

/-! ## Lemmas on digits -/

theorem contains_decimalDigits (c : Char) :
    decimalDigits.contains c = true ↔ 48 ≤ c.toNat ∧ c.toNat ≤ 57 := by
  constructor
  · intro h
    simp [decimalDigits] at h
    rcases h with h | h | h | h | h | h | h | h | h | h <;> subst h <;> decide
  · rintro ⟨h1, h2⟩
    have hc : c = Char.ofNat c.toNat := (Char.ofNat_toNat c).symm
    generalize c.toNat = k at *
    subst hc
    interval_cases k <;> decide

theorem digitChar_toNat (k : Nat) (hk : k < 10) : (Nat.digitChar k).toNat = 48 + k := by
  interval_cases k <;> rfl

theorem digitsVal_append (acc : Nat) (l1 l2 : Str) :
    digitsVal acc (l1 ++ l2) = digitsVal (digitsVal acc l1) l2 := by
  simp [digitsVal, List.foldl_append]

theorem le_digitsVal (ds : Str) : ∀ acc, acc ≤ digitsVal acc ds := by
  induction ds with
  | nil => intro acc; simp [digitsVal]
  | cons c cs ih =>
    intro acc
    have h := ih (acc * 10 + (c.toNat - 48))
    simp only [digitsVal, List.foldl_cons] at h ⊢
    omega

theorem toDigitsCore_acc : ∀ (fuel n : Nat) (ds : Str),
    Nat.toDigitsCore 10 fuel n ds = Nat.toDigitsCore 10 fuel n [] ++ ds := by
  intro fuel
  induction fuel with
  | zero => intro n ds; simp [Nat.toDigitsCore]
  | succ fuel ih =>
    intro n ds
    simp only [Nat.toDigitsCore]
    split
    · simp
    · rw [ih (n / 10) (_ :: ds), ih (n / 10) [_]]
      simp

theorem toDigitsCore_spec : ∀ (fuel n : Nat), n < fuel →
    IsDigits (Nat.toDigitsCore 10 fuel n []) ∧ Nat.toDigitsCore 10 fuel n [] ≠ [] ∧
      digitsVal 0 (Nat.toDigitsCore 10 fuel n []) = n := by
  intro fuel
  induction fuel with
  | zero => intro n h; omega
  | succ fuel ih =>
    intro n hn
    have hd : (Nat.digitChar (n % 10)).toNat = 48 + n % 10 :=
      digitChar_toNat _ (Nat.mod_lt _ (by decide))
    have hdig : decimalDigits.contains (Nat.digitChar (n % 10)) = true := by
      rw [contains_decimalDigits]; omega
    simp only [Nat.toDigitsCore]
    split
    · rename_i h0
      refine ⟨?_, by simp, ?_⟩
      · intro c hc
        simp at hc
        subst hc
        exact hdig
      · simp only [digitsVal, List.foldl_cons, List.foldl_nil, hd]
        omega
    · rename_i h0
      have hlt : n / 10 < fuel := by omega
      obtain ⟨h1, h2, h3⟩ := ih (n / 10) hlt
      rw [toDigitsCore_acc]
      refine ⟨?_, by simp, ?_⟩
      · intro c hc
        rcases List.mem_append.mp hc with hc | hc
        · exact h1 c hc
        · simp at hc
          subst hc
          exact hdig
      · rw [digitsVal_append, h3]
        simp only [digitsVal, List.foldl_cons, List.foldl_nil, hd]
        omega

theorem decimal_isDigits (n : Nat) : IsDigits (decimal n) :=
  (toDigitsCore_spec (n + 1) n (Nat.lt_succ_self n)).1

theorem decimal_ne_nil (n : Nat) : decimal n ≠ [] :=
  (toDigitsCore_spec (n + 1) n (Nat.lt_succ_self n)).2.1

theorem digitsVal_decimal (n : Nat) : digitsVal 0 (decimal n) = n :=
  (toDigitsCore_spec (n + 1) n (Nat.lt_succ_self n)).2.2

/-! ## Lemmas on strconv -/

theorem ParseUintLoop_digits (s0 : Str) (maxVal : Nat) (hmax : maxVal < 2 ^ 64) :
    ∀ (ds : Str) (n : Nat), IsDigits ds → n ≤ maxVal →
      ParseUintLoop s0 maxVal n ds =
        if digitsVal n ds ≤ maxVal then (digitsVal n ds, none)
        else (maxVal, some (rangeError "ParseUint".toList s0)) := by
  intro ds
  induction ds with
  | nil => intro n _ hn; simp [ParseUintLoop, digitsVal, hn]
  | cons c cs ih =>
    intro n hd hn
    have hc := (contains_decimalDigits c).mp (hd c (by simp))
    have hcs : IsDigits cs := fun x hx => hd x (by simp [hx])
    have hmono := le_digitsVal cs (n * 10 + (c.toNat - 48))
    have h0 : '0'.toNat = 48 := rfl
    have h9 : '9'.toNat = 57 := rfl
    have hcut : maxUint64 / 10 + 1 = 1844674407370955162 := by norm_num [maxUint64]
    have hpow : (2 : Nat) ^ 64 = 18446744073709551616 := by norm_num
    rw [hpow] at hmax
    have hval : digitsVal n (c :: cs) = digitsVal (n * 10 + (c.toNat - 48)) cs := by
      simp [digitsVal]
    rw [ParseUintLoop, hval, h0, h9, hcut, hpow]
    simp only [hc.1, hc.2, decide_True, Bool.and_self, if_true]
    by_cases h1 : n ≥ 1844674407370955162
    · rw [if_pos h1, if_neg (by omega)]
    · rw [if_neg h1]
      have e1 : n * 10 % 18446744073709551616 = n * 10 := Nat.mod_eq_of_lt (by omega)
      simp only [e1]
      by_cases h2 : n * 10 + (c.toNat - 48) < 18446744073709551616
      · have e2 : (n * 10 + (c.toNat - 48)) % 18446744073709551616 = n * 10 + (c.toNat - 48) :=
          Nat.mod_eq_of_lt h2
        simp only [e2]
        by_cases h3 : n * 10 + (c.toNat - 48) > maxVal
        · have : (decide (n * 10 + (c.toNat - 48) < n * 10) ||
              decide (n * 10 + (c.toNat - 48) > maxVal)) = true := by simp [h3]
          rw [if_pos this, if_neg (by omega)]
        · have : ¬ ((decide (n * 10 + (c.toNat - 48) < n * 10) ||
              decide (n * 10 + (c.toNat - 48) > maxVal)) = true) := by simp; omega
          rw [if_neg this]
          exact ih _ hcs (by omega)
      · have e2 : (n * 10 + (c.toNat - 48)) % 18446744073709551616 < n * 10 := by omega
        have : (decide ((n * 10 + (c.toNat - 48)) % 18446744073709551616 < n * 10) ||
              decide ((n * 10 + (c.toNat - 48)) % 18446744073709551616 > maxVal)) = true := by
          simp [e2]
        rw [if_pos this, if_neg (by omega)]

theorem wrapInt_of_range (bits : Nat) (hb : bits = 32 ∨ bits = 64) (x : Int)
    (h1 : -((2 ^ (bits - 1) : Nat) : Int) ≤ x) (h2 : x < ((2 ^ (bits - 1) : Nat) : Int)) :
    wrapInt bits x = x := by
  rcases hb with rfl | rfl <;> simp only [wrapInt] at * <;> norm_num at * <;> omega

theorem digit_head_not_sign (c : Char) (hc : decimalDigits.contains c = true) :
    (c == '+') = false ∧ (c == '-') = false ∧ (c == '\n') = false ∧ (c == '\r') = false ∧
      isSpace c = false ∧ sign.contains c = false := by
  simp [decimalDigits] at hc
  rcases hc with h | h | h | h | h | h | h | h | h | h <;> subst h <;> decide

theorem ParseInt_digits (bitSize : Nat) (hb : bitSize = 32 ∨ bitSize = 64) (ds : Str)
    (hd : IsDigits ds) (hne : ds ≠ []) :
    ParseInt ds bitSize =
      if digitsVal 0 ds < 2 ^ (bitSize - 1) then ((digitsVal 0 ds : Int), none)
      else (((2 ^ (bitSize - 1) - 1 : Nat) : Int), some (rangeError "ParseInt".toList ds)) := by
  obtain ⟨c, cs, rfl⟩ := List.exists_cons_of_ne_nil hne
  have hc := digit_head_not_sign c (hd c (by simp))
  have hmax : 2 ^ bitSize - 1 < 2 ^ 64 := by
    rcases hb with rfl | rfl <;> norm_num
  have hloop := ParseUintLoop_digits (c :: cs) (2 ^ bitSize - 1) hmax (c :: cs) 0 hd (Nat.zero_le _)
  have hpu : ParseUint (c :: cs) bitSize =
      if digitsVal 0 (c :: cs) ≤ 2 ^ bitSize - 1 then (digitsVal 0 (c :: cs), none)
      else (2 ^ bitSize - 1, some (rangeError "ParseUint".toList (c :: cs))) := by
    simp only [ParseUint, hloop]
    simp
  have hs : (if ((c :: cs).head? == some '+' || (c :: cs).head? == some '-') = true
      then (c :: cs).tail else (c :: cs)) = c :: cs := by
    simp [hc.1, hc.2.1]
  have hneg : ((c :: cs).head? == some '-') = false := by simp [hc.2.1]
  simp only [ParseInt, hs]
  rw [if_neg hne]
  simp only [hneg, hpu]
  generalize digitsVal 0 (c :: cs) = v
  have hw : v < 2 ^ 63 → wrapInt 64 (v : Int) = v := by
    intro hv
    apply wrapInt_of_range 64 (Or.inr rfl) <;> norm_num at * <;> omega
  simp only [Bool.not_false, Bool.true_and, Bool.false_and, decide_eq_true_eq, Bool.false_eq_true,
    if_false]
  rcases hb with rfl | rfl
  · have e1 : (2 : Nat) ^ 32 - 1 = 4294967295 := by norm_num
    have e2 : (2 : Nat) ^ (32 - 1) = 2147483648 := by norm_num
    rw [e1, e2]
    by_cases h1 : v ≤ 4294967295
    · rw [if_pos h1]
      by_cases h2 : v < 2147483648
      · rw [if_pos h2]
        simp only []
        rw [if_neg (show ¬ v ≥ 2147483648 by omega), hw (by omega)]
      · rw [if_neg h2]
        simp only []
        rw [if_pos (show v ≥ 2147483648 by omega)]
    · rw [if_neg h1, if_neg (show ¬ v < 2147483648 by omega)]
      simp only [rangeError]
      rw [if_pos (show 4294967295 ≥ 2147483648 by omega)]
  · have e1 : (2 : Nat) ^ 64 - 1 = 18446744073709551615 := by norm_num
    have e2 : (2 : Nat) ^ (64 - 1) = 9223372036854775808 := by norm_num
    rw [e1, e2]
    by_cases h1 : v ≤ 18446744073709551615
    · rw [if_pos h1]
      by_cases h2 : v < 9223372036854775808
      · rw [if_pos h2]
        simp only []
        rw [if_neg (show ¬ v ≥ 9223372036854775808 by omega), hw (by omega)]
      · rw [if_neg h2]
        simp only []
        rw [if_pos (show v ≥ 9223372036854775808 by omega)]
    · rw [if_neg h1, if_neg (show ¬ v < 9223372036854775808 by omega)]
      simp only [rangeError]
      rw [if_pos (show 18446744073709551615 ≥ 9223372036854775808 by omega)]

theorem wrapInt_lt (bits : Nat) (hb : bits = 32 ∨ bits = 64) (x : Int) :
    wrapInt bits x < ((2 ^ (bits - 1) : Nat) : Int) := by
  rcases hb with rfl | rfl <;> simp only [wrapInt] <;> norm_num <;> omega

/-! ## Lemmas on strings.Trim -/

theorem mem_dropWhile_or (p : Char → Bool) (c : Char) :
    ∀ l : Str, c ∈ l → p c = true ∨ c ∈ l.dropWhile p := by
  intro l
  induction l with
  | nil => intro h; simp at h
  | cons x xs ih =>
    intro h
    by_cases hx : p x = true
    · rcases List.mem_cons.mp h with rfl | h
      · exact Or.inl hx
      · rw [List.dropWhile_cons_of_pos hx]
        exact ih h
    · right
      rw [List.dropWhile_cons_of_neg hx]
      exact h

theorem mem_rdropWhile_or (p : Char → Bool) (c : Char) (l : Str) (h : c ∈ l) :
    p c = true ∨ c ∈ l.rdropWhile p := by
  have := mem_dropWhile_or p c l.reverse (List.mem_reverse.mpr h)
  simpa [List.rdropWhile] using this

theorem mem_Trim_or (cutset : Str) (c : Char) (s : Str) (h : c ∈ s) :
    cutset.contains c = true ∨ c ∈ Trim s cutset := by
  rcases mem_rdropWhile_or (fun r => cutset.contains r) c s h with h1 | h1
  · exact Or.inl h1
  · exact mem_dropWhile_or (fun r => cutset.contains r) c _ h1

theorem Trim_ne_zero_of_mem (c : Char) (s : Str) (h : c ∈ s) (h1 : c ≠ '\n') (h2 : c ≠ '0') :
    (Trim s "\n".toList == "0".toList) = false := by
  rcases mem_Trim_or "\n".toList c s h with h3 | h3
  · simp at h3
    exact absurd h3 h1
  · by_contra hcon
    simp only [Bool.not_eq_false, beq_iff_eq] at hcon
    rw [hcon] at h3
    simp at h3
    exact h2 h3

theorem Trim_append_newline (s : Str) : Trim (s ++ ['\n']) "\n".toList = Trim s "\n".toList := by
  unfold Trim
  rw [List.rdropWhile_concat_pos]
  simp

/-! ## Lemmas on the scanner -/

theorem acceptLoop_eq (ok : Str) : ∀ (input buf : Str),
    acceptLoop ok buf input =
      (buf ++ input.takeWhile (fun r => ok.contains r),
        input.dropWhile (fun r => ok.contains r)) := by
  intro input
  induction input with
  | nil => intro buf; simp [acceptLoop]
  | cons r rest ih =>
    intro buf
    by_cases h : ok.contains r = true
    · rw [acceptLoop, if_pos h, ih, List.takeWhile_cons_of_pos h, List.dropWhile_cons_of_pos h,
        List.append_assoc, List.singleton_append]
    · rw [acceptLoop, if_neg h, List.takeWhile_cons_of_neg h, List.dropWhile_cons_of_neg h,
        List.append_nil]

theorem SkipSpace_digit (c : Char) (rest : Str) (hc : decimalDigits.contains c = true) :
    SkipSpace (c :: rest) = .ok (c :: rest) := by
  have h := digit_head_not_sign c hc
  simp [SkipSpace, h.2.2.1, h.2.2.2.1, h.2.2.2.2.1]

theorem scanInt_digits (bits : Nat) (ds rest : Str) (hd : IsDigits ds) (hne : ds ≠ [])
    (hrest : peek decimalDigits rest = false) :
    scanInt bits (ds ++ rest) =
      match ParseInt ds 64 with
      | (_, some err) => .error err
      | (i, none) =>
        if wrapInt bits i != i then
          .error (.errorString ("integer overflow on token ".toList ++ ds))
        else
          .ok (i, rest) := by
  obtain ⟨c, cs, rfl⟩ := List.exists_cons_of_ne_nil hne
  have hc : decimalDigits.contains c = true := hd c (by simp)
  have hcs : ∀ a ∈ cs, (fun r => decimalDigits.contains r) a = true :=
    fun a ha => hd a (by simp [ha])
  have h := digit_head_not_sign c hc
  have htake : (cs ++ rest).takeWhile (fun r => decimalDigits.contains r) = cs := by
    rw [List.takeWhile_append_of_pos hcs]
    cases rest with
    | nil => simp
    | cons x xs =>
      simp only [peek] at hrest
      rw [List.takeWhile_cons_of_neg (by rw [hrest]; exact Bool.false_ne_true), List.append_nil]
  have hdrop : (cs ++ rest).dropWhile (fun r => decimalDigits.contains r) = rest := by
    rw [List.dropWhile_append_of_pos hcs]
    cases rest with
    | nil => simp
    | cons x xs =>
      simp only [peek] at hrest
      rw [List.dropWhile_cons_of_neg (by rw [hrest]; exact Bool.false_ne_true)]
  have hnum : scanNumber decimalDigits [] (c :: cs ++ rest) = .ok (c :: cs, rest) := by
    simp only [scanNumber, notEOF, List.cons_append, accept, hc, if_true, acceptLoop_eq, htake,
      hdrop, List.nil_append, List.singleton_append]
  have hsign : accept sign [] (c :: cs ++ rest) = (false, [], c :: cs ++ rest) := by
    simp only [List.cons_append, accept, h.2.2.2.2.2, Bool.false_eq_true, if_false]
  simp only [scanInt, List.cons_append, SkipSpace_digit c (cs ++ rest) hc, notEOF]
  rw [← List.cons_append, hsign]
  simp only [hnum, convertToken]

theorem scanInt_digits_ok (bits : Nat) (hb : bits = 32 ∨ bits = 64) (ds rest : Str)
    (hd : IsDigits ds) (hne : ds ≠ []) (hrest : peek decimalDigits rest = false)
    (hv : digitsVal 0 ds < 2 ^ (bits - 1)) :
    scanInt bits (ds ++ rest) = .ok ((digitsVal 0 ds : Int), rest) := by
  have h63 : digitsVal 0 ds < 2 ^ (64 - 1) := by
    rcases hb with rfl | rfl
    · exact lt_trans hv (by norm_num)
    · exact hv
  have hw : wrapInt bits (digitsVal 0 ds : Int) = (digitsVal 0 ds : Int) := by
    apply wrapInt_of_range bits hb
    · have : (0 : Int) ≤ (digitsVal 0 ds : Int) := Int.natCast_nonneg _
      have : (0 : Int) ≤ ((2 ^ (bits - 1) : Nat) : Int) := Int.natCast_nonneg _
      omega
    · exact Int.ofNat_lt.mpr hv
  rw [scanInt_digits bits ds rest hd hne hrest, ParseInt_digits 64 (Or.inr rfl) ds hd hne,
    if_pos h63]
  simp only [hw, bne_self_eq_false, Bool.false_eq_true, if_false]

theorem scanInt_digits_overflow (bits : Nat) (hb : bits = 32 ∨ bits = 64) (ds rest : Str)
    (hd : IsDigits ds) (hne : ds ≠ []) (hrest : peek decimalDigits rest = false)
    (hv : 2 ^ (bits - 1) ≤ digitsVal 0 ds) :
    ∃ e, scanInt bits (ds ++ rest) = .error e := by
  rw [scanInt_digits bits ds rest hd hne hrest, ParseInt_digits 64 (Or.inr rfl) ds hd hne]
  by_cases h63 : digitsVal 0 ds < 2 ^ (64 - 1)
  · rw [if_pos h63]
    have hlt := wrapInt_lt bits hb (digitsVal 0 ds : Int)
    have hne2 : wrapInt bits (digitsVal 0 ds : Int) ≠ (digitsVal 0 ds : Int) := by
      intro heq
      rw [heq] at hlt
      exact absurd (Int.ofNat_lt.mp hlt) (by omega)
    simp only [bne_iff_ne, ne_eq, hne2, not_false_eq_true, if_true]
    exact ⟨_, rfl⟩
  · rw [if_neg h63]
    exact ⟨_, rfl⟩

theorem scanInt_digits_cases (bits : Nat) (ds rest : Str) (hd : IsDigits ds) (hne : ds ≠ [])
    (hrest : peek decimalDigits rest = false) :
    (∃ e, scanInt bits (ds ++ rest) = .error e) ∨ ∃ i, scanInt bits (ds ++ rest) = .ok (i, rest) := by
  rw [scanInt_digits bits ds rest hd hne hrest]
  rcases ParseInt ds 64 with ⟨i, _ | err⟩
  · by_cases h : (wrapInt bits i != i) = true
    · left; simp only [h, if_true]; exact ⟨_, rfl⟩
    · right; simp only [h, if_false]; exact ⟨_, rfl⟩
  · left; exact ⟨_, rfl⟩

theorem parseCPUs_invalid (bits : Nat) (spec : Str)
    (ht : (Trim spec "\n".toList == "0".toList) = false)
    (hs : ((Sscanf bits spec).n != 2 || (Sscanf bits spec).err != none) = true) :
    parseCPUs bits spec = (0, some (.errorString ("invalid format: ".toList ++ spec))) := by
  simp only [parseCPUs, ht, Bool.false_eq_true, if_false, hs, if_true]

theorem SkipSpace_digits (ds rest : Str) (hd : IsDigits ds) (hne : ds ≠ []) :
    SkipSpace (ds ++ rest) = .ok (ds ++ rest) := by
  obtain ⟨c, cs, rfl⟩ := List.exists_cons_of_ne_nil hne
  exact SkipSpace_digit c (cs ++ rest) (hd c (by simp))

theorem wrapInt_natCast (bits : Nat) (hb : bits = 32 ∨ bits = 64) (v : Nat)
    (hv : v < 2 ^ (bits - 1)) : wrapInt bits (v : Int) = (v : Int) := by
  apply wrapInt_of_range bits hb
  · have : (0 : Int) ≤ (v : Int) := Int.natCast_nonneg _
    have : (0 : Int) ≤ ((2 ^ (bits - 1) : Nat) : Int) := Int.natCast_nonneg _
    omega
  · exact Int.ofNat_lt.mpr hv

theorem doScanf_range_ok (bits : Nat) (hb : bits = 32 ∨ bits = 64) (d1 d2 tail : Str)
    (h1 : IsDigits d1) (n1 : d1 ≠ []) (h2 : IsDigits d2) (n2 : d2 ≠ [])
    (ht : peek decimalDigits tail = false)
    (hv1 : digitsVal 0 d1 < 2 ^ (bits - 1)) (hv2 : digitsVal 0 d2 < 2 ^ (bits - 1)) :
    doScanf bits (d1 ++ '-' :: (d2 ++ tail)) =
      match advanceNewline tail with
      | .error e => ⟨2, some e, (digitsVal 0 d1 : Int), (digitsVal 0 d2 : Int)⟩
      | .ok _ => ⟨2, none, (digitsVal 0 d1 : Int), (digitsVal 0 d2 : Int)⟩ := by
  have hp : peek decimalDigits ('-' :: (d2 ++ tail)) = false := by
    show decimalDigits.contains '-' = false
    decide
  simp only [doScanf, SkipSpace_digits d1 _ h1 n1,
    scanInt_digits_ok bits hb d1 _ h1 n1 hp hv1, advanceLiteral, bne_self_eq_false,
    Bool.false_eq_true, if_false, SkipSpace_digits d2 _ h2 n2,
    scanInt_digits_ok bits hb d2 _ h2 n2 ht hv2, wrapInt_natCast bits hb _ hv1,
    wrapInt_natCast bits hb _ hv2]

theorem advanceNewline_optNewline (nl : Bool) : advanceNewline (optNewline nl) = .ok [] := by
  cases nl <;> rfl

theorem peek_optNewline (nl : Bool) : peek decimalDigits (optNewline nl) = false := by
  cases nl <;> decide

theorem isDigits_zero : IsDigits ['0'] := by
  intro c hc
  simp at hc
  subst hc
  decide

theorem doScanf_fails_after_number (bits : Nat) (ds : Str) (c : Char) (rest : Str)
    (hd : IsDigits ds) (hne : ds ≠ []) (hc1 : decimalDigits.contains c = false)
    (hc2 : c ≠ '-') :
    ((doScanf bits (ds ++ c :: rest)).n != 2 || (doScanf bits (ds ++ c :: rest)).err != none)
      = true := by
  have hp : peek decimalDigits (c :: rest) = false := hc1
  have hlit : ('-' != c) = true := by
    simp only [bne_iff_ne, ne_eq]
    exact fun h => hc2 h.symm
  rcases scanInt_digits_cases bits ds (c :: rest) hd hne hp with ⟨e, he⟩ | ⟨i, hi⟩
  · simp only [doScanf, SkipSpace_digits ds _ hd hne, he]
    rfl
  · simp only [doScanf, SkipSpace_digits ds _ hd hne, hi, advanceLiteral, hlit, if_true]
    rfl

theorem doScanf_fails_after_range (bits : Nat) (d1 d2 : Str) (c : Char) (rest : Str)
    (h1 : IsDigits d1) (n1 : d1 ≠ []) (h2 : IsDigits d2) (n2 : d2 ≠ [])
    (hc1 : decimalDigits.contains c = false) (hc2 : isSpace c = false) :
    ((doScanf bits (d1 ++ '-' :: (d2 ++ c :: rest))).n != 2 ||
      (doScanf bits (d1 ++ '-' :: (d2 ++ c :: rest))).err != none) = true := by
  have hp1 : peek decimalDigits ('-' :: (d2 ++ c :: rest)) = false := by
    show decimalDigits.contains '-' = false
    decide
  have hp2 : peek decimalDigits (c :: rest) = false := hc1
  have hnl : (c != '\n') = true := by
    simp only [bne_iff_ne, ne_eq]
    intro h
    rw [h] at hc2
    exact absurd hc2 (by decide)
  rcases scanInt_digits_cases bits d1 _ h1 n1 hp1 with ⟨e, he⟩ | ⟨i, hi⟩
  · simp only [doScanf, SkipSpace_digits d1 _ h1 n1, he]
    rfl
  · rcases scanInt_digits_cases bits d2 _ h2 n2 hp2 with ⟨e, he⟩ | ⟨j, hj⟩
    · simp only [doScanf, SkipSpace_digits d1 _ h1 n1, hi, advanceLiteral, bne_self_eq_false,
        Bool.false_eq_true, if_false, SkipSpace_digits d2 _ h2 n2, he]
      rfl
    · simp only [doScanf, SkipSpace_digits d1 _ h1 n1, hi, advanceLiteral, bne_self_eq_false,
        Bool.false_eq_true, if_false, SkipSpace_digits d2 _ h2 n2, hj, advanceNewline, hc2,
        Bool.false_and, hnl, if_true]
      rfl

theorem dropWhile_of_forall_not (p : Char → Bool) (l : Str) (h : ∀ c ∈ l, p c = false) :
    l.dropWhile p = l := by
  cases l with
  | nil => rfl
  | cons x xs =>
    exact List.dropWhile_cons_of_neg (by rw [h x (by simp)]; exact Bool.false_ne_true)

theorem Trim_of_forall_not (cutset s : Str) (h : ∀ c ∈ s, cutset.contains c = false) :
    Trim s cutset = s := by
  unfold Trim
  have h1 : s.rdropWhile (fun r => cutset.contains r) = s := by
    unfold List.rdropWhile
    rw [dropWhile_of_forall_not _ _ (fun c hc => h c (List.mem_reverse.mp hc)),
      List.reverse_reverse]
  rw [h1]
  exact dropWhile_of_forall_not _ _ h

theorem Trim_digits_newline (ds : Str) (hd : IsDigits ds) :
    Trim (ds ++ "\n".toList) "\n".toList = ds := by
  have h := Trim_append_newline ds
  have h2 : Trim ds "\n".toList = ds := by
    apply Trim_of_forall_not
    intro c hc
    have := (digit_head_not_sign c (hd c hc)).2.2.1
    show List.elem c ['\n'] = false
    rw [List.elem, this]
    rfl
  exact h.trans h2

theorem AtoiLoop_digits : ∀ (ds : Str) (a : Nat), IsDigits ds →
    AtoiLoop (a : Int) ds = some ((digitsVal a ds : Nat) : Int) := by
  intro ds
  induction ds with
  | nil => intro a _; rfl
  | cons c cs ih =>
    intro a hd
    have hc := (contains_decimalDigits c).mp (hd c (by simp))
    have hcs : IsDigits cs := fun x hx => hd x (by simp [hx])
    have h0 : '0'.toNat = 48 := rfl
    have hcond : ('0'.toNat ≤ c.toNat && c.toNat - '0'.toNat ≤ 9) = true := by
      rw [h0]
      simp only [Bool.and_eq_true, decide_eq_true_eq]
      omega
    have hval : digitsVal a (c :: cs) = digitsVal (a * 10 + (c.toNat - 48)) cs := by
      simp [digitsVal]
    rw [AtoiLoop, if_pos hcond, hval, ← ih (a * 10 + (c.toNat - 48)) hcs, h0]
    push_cast
    rfl

theorem Atoi_digits (intSize : Nat) (hsize : intSize = 32 ∨ intSize = 64) (ds : Str)
    (hd : IsDigits ds) (hne : ds ≠ []) (hv : digitsVal 0 ds < 2 ^ (intSize - 1)) :
    Atoi intSize ds = ((digitsVal 0 ds : Int), none) := by
  obtain ⟨c, cs, rfl⟩ := List.exists_cons_of_ne_nil hne
  have hc := digit_head_not_sign c (hd c (by simp))
  have hsigned : ((c :: cs).head? == some '-' || (c :: cs).head? == some '+') = false := by
    simp [hc.1, hc.2.1]
  have hminus : ((c :: cs).head? == some '-') = false := by simp [hc.2.1]
  have hloop : AtoiLoop 0 (c :: cs) = some ((digitsVal 0 (c :: cs) : Nat) : Int) :=
    AtoiLoop_digits (c :: cs) 0 hd
  have hs : (if ((c :: cs).head? == some '-' || (c :: cs).head? == some '+') = true
      then (c :: cs).tail else (c :: cs)) = c :: cs := by
    rw [hsigned]
    rfl
  have hpi : ParseInt (c :: cs) intSize = ((digitsVal 0 (c :: cs) : Int), none) := by
    rw [ParseInt_digits intSize hsize (c :: cs) hd (by simp), if_pos hv]
  have hplus : ((c :: cs).head? == some '+') = false := by simp [hc.1]
  simp only [Atoi, hs]
  simp only [hminus, hplus, hpi, hloop, wrapInt_natCast intSize hsize _ hv, Bool.or_self,
    Bool.false_and, Bool.false_eq_true, if_false, ite_self]

/-! ## The scanner and a trailing newline -/

theorem SkipSpace_cons (r : Char) (rest : Str) :
    SkipSpace (r :: rest) =
      if r == '\n' then .error (.errorString "unexpected newline".toList)
      else if !isSpace r then .ok (r :: rest)
      else SkipSpace rest := by
  rw [SkipSpace]
  by_cases h : (r == '\r' && peek "\n".toList rest) = true
  · rw [if_pos h]
    have hr : r = '\r' := by
      simp only [Bool.and_eq_true, beq_iff_eq] at h
      exact h.1
    subst hr
    rfl
  · rw [if_neg h]

theorem SkipSpace_ok_shape : ∀ (s r : Str), SkipSpace s = .ok r →
    (∃ b, s = b ++ r ∧ IsBlanks b) ∧ SkipSpace r = .ok r := by
  intro s
  induction s with
  | nil =>
    intro r h
    simp only [SkipSpace, Except.ok.injEq] at h
    subst h
    exact ⟨⟨[], rfl, fun c hc => by simp at hc⟩, rfl⟩
  | cons c rest ih =>
    intro r h
    rw [SkipSpace_cons] at h
    by_cases h1 : (c == '\n') = true
    · rw [if_pos h1] at h
      cases h
    · rw [if_neg h1] at h
      by_cases h2 : (!isSpace c) = true
      · rw [if_pos h2] at h
        simp only [Except.ok.injEq] at h
        subst h
        refine ⟨⟨[], rfl, fun c hc => by simp at hc⟩, ?_⟩
        rw [SkipSpace_cons, if_neg h1, if_pos h2]
      · rw [if_neg h2] at h
        obtain ⟨⟨b, hb, hbl⟩, hidem⟩ := ih r h
        refine ⟨⟨c :: b, by rw [hb]; rfl, ?_⟩, hidem⟩
        intro x hx
        rcases List.mem_cons.mp hx with rfl | hx
        · simp only [isBlank, Bool.and_eq_true]
          constructor
          · simpa using h2
          · simpa using h1
        · exact hbl x hx

theorem skip_then_scanInt (bits : Nat) (s : Str) :
    (match SkipSpace s with
      | .error e => (.error e : Except GoError (Int × Str))
      | .ok t => scanInt bits t) = scanInt bits s := by
  rcases h : SkipSpace s with e | t
  · simp only [scanInt, h]
  · have hidem := (SkipSpace_ok_shape s t h).2
    simp only [scanInt, h, hidem]

theorem doScanf_eq (bits : Nat) (s : Str) :
    doScanf bits s =
      match scanInt bits s with
      | .error e => ⟨0, some e, 0, 0⟩
      | .ok (low, s2) =>
        match advanceLiteral '-' s2 with
        | .error e => ⟨1, some e, wrapInt bits low, 0⟩
        | .ok s3 =>
          match scanInt bits s3 with
          | .error e => ⟨1, some e, wrapInt bits low, 0⟩
          | .ok (high, s5) =>
            match advanceNewline s5 with
            | .error e => ⟨2, some e, wrapInt bits low, wrapInt bits high⟩
            | .ok _ => ⟨2, none, wrapInt bits low, wrapInt bits high⟩ := by
  rw [← skip_then_scanInt bits s]
  unfold doScanf
  rcases SkipSpace s with e | t
  · rfl
  · simp only []
    rcases scanInt bits t with e | ⟨low, s2⟩
    · rfl
    · simp only []
      rcases advanceLiteral '-' s2 with e | s3
      · rfl
      · simp only []
        rw [← skip_then_scanInt bits s3]
        rcases SkipSpace s3 with e | s4
        · rfl
        · rfl

theorem takeWhile_append_nl (p : Char → Bool) (hp : p '\n' = false) : ∀ w : Str,
    (w ++ ['\n']).takeWhile p = w.takeWhile p ∧
      (w ++ ['\n']).dropWhile p = w.dropWhile p ++ ['\n'] := by
  have hn : ¬ p '\n' = true := by rw [hp]; exact Bool.false_ne_true
  intro w
  induction w with
  | nil =>
    exact ⟨List.takeWhile_cons_of_neg hn, List.dropWhile_cons_of_neg hn⟩
  | cons x xs ih =>
    by_cases hx : p x = true
    · rw [List.cons_append, List.takeWhile_cons_of_pos hx, List.takeWhile_cons_of_pos hx,
        List.dropWhile_cons_of_pos hx, List.dropWhile_cons_of_pos hx, ih.1, ih.2]
      exact ⟨rfl, rfl⟩
    · rw [List.cons_append, List.takeWhile_cons_of_neg hx, List.takeWhile_cons_of_neg hx,
        List.dropWhile_cons_of_neg hx, List.dropWhile_cons_of_neg hx]
      exact ⟨rfl, rfl⟩

theorem SkipSpace_append_nl : ∀ s : Str, '\n' ∉ s →
    ∃ t, SkipSpace s = .ok t ∧ '\n' ∉ t ∧
      (t = [] → ∃ e, SkipSpace (s ++ ['\n']) = .error e) ∧
      (t ≠ [] → SkipSpace (s ++ ['\n']) = .ok (t ++ ['\n'])) := by
  intro s
  induction s with
  | nil =>
    intro _
    exact ⟨[], rfl, by simp, fun _ => ⟨_, rfl⟩, fun h => absurd rfl h⟩
  | cons c rest ih =>
    intro hs
    have hc : ¬ (c == '\n') = true := by
      intro h
      exact hs (by rw [beq_iff_eq] at h; rw [h]; simp)
    have hrest : '\n' ∉ rest := fun h => hs (List.mem_cons_of_mem _ h)
    by_cases h2 : (!isSpace c) = true
    · refine ⟨c :: rest, ?_, hs, fun h => by simp at h, fun _ => ?_⟩
      · rw [SkipSpace_cons, if_neg hc, if_pos h2]
      · rw [List.cons_append, SkipSpace_cons, if_neg hc, if_pos h2]
    · obtain ⟨t, ht, hnt, h3, h4⟩ := ih hrest
      refine ⟨t, ?_, hnt, fun h => ?_, fun h => ?_⟩
      · rw [SkipSpace_cons, if_neg hc, if_neg h2, ht]
      · rw [List.cons_append, SkipSpace_cons, if_neg hc, if_neg h2]
        exact h3 h
      · rw [List.cons_append, SkipSpace_cons, if_neg hc, if_neg h2]
        exact h4 h

theorem scanNumber_append_nl (buf v : Str) (hv : '\n' ∉ v) :
    (∃ e e2, scanNumber decimalDigits buf v = .error e ∧
        scanNumber decimalDigits buf (v ++ ['\n']) = .error e2) ∨
      (∃ tok r, scanNumber decimalDigits buf v = .ok (tok, r) ∧
        scanNumber decimalDigits buf (v ++ ['\n']) = .ok (tok, r ++ ['\n']) ∧ '\n' ∉ r) := by
  have hp : (fun r => decimalDigits.contains r) '\n' = false := by decide
  cases v with
  | nil =>
    left
    exact ⟨_, _, rfl, rfl⟩
  | cons d w =>
    by_cases hd : decimalDigits.contains d = true
    · right
      have hw : '\n' ∉ w := fun h => hv (List.mem_cons_of_mem _ h)
      have htd := takeWhile_append_nl _ hp w
      refine ⟨buf ++ [d] ++ w.takeWhile (fun r => decimalDigits.contains r),
        w.dropWhile (fun r => decimalDigits.contains r), ?_, ?_, ?_⟩
      · simp only [scanNumber, notEOF, accept, hd, if_true, acceptLoop_eq]
      · simp only [List.cons_append, scanNumber, notEOF, accept, hd, if_true, acceptLoop_eq,
          htd.1, htd.2]
      · exact fun h => hw ((List.dropWhile_suffix _).subset h)
    · left
      refine ⟨.errorString "expected integer".toList, .errorString "expected integer".toList,
        ?_, ?_⟩
      · simp only [scanNumber, notEOF, accept, hd, Bool.false_eq_true, if_false]
      · simp only [List.cons_append, scanNumber, notEOF, accept, hd, Bool.false_eq_true,
          if_false]

theorem convertToken_append_nl (bits : Nat) (tok r : Str) (hr : '\n' ∉ r) :
    (∃ e e2, convertToken bits tok r = .error e ∧
        convertToken bits tok (r ++ ['\n']) = .error e2) ∨
      (∃ v, convertToken bits tok r = .ok (v, r) ∧
        convertToken bits tok (r ++ ['\n']) = .ok (v, r ++ ['\n']) ∧ '\n' ∉ r) := by
  unfold convertToken
  rcases ParseInt tok 64 with ⟨i, _ | err⟩
  · by_cases h : (wrapInt bits i != i) = true
    · left
      simp only [h, if_true]
      exact ⟨_, _, rfl, rfl⟩
    · right
      simp only [h, if_false]
      exact ⟨_, rfl, rfl, hr⟩
  · left
    exact ⟨_, _, rfl, rfl⟩


theorem scanNumber_convert_append_nl (bits : Nat) (buf v : Str) (hv : '\n' ∉ v) :
    (∃ e e2,
        (match scanNumber decimalDigits buf v with
          | .error e => (.error e : Except GoError (Int × Str))
          | .ok (tok, input) => convertToken bits tok input) = .error e ∧
        (match scanNumber decimalDigits buf (v ++ ['\n']) with
          | .error e => (.error e : Except GoError (Int × Str))
          | .ok (tok, input) => convertToken bits tok input) = .error e2) ∨
      (∃ i r,
        (match scanNumber decimalDigits buf v with
          | .error e => (.error e : Except GoError (Int × Str))
          | .ok (tok, input) => convertToken bits tok input) = .ok (i, r) ∧
        (match scanNumber decimalDigits buf (v ++ ['\n']) with
          | .error e => (.error e : Except GoError (Int × Str))
          | .ok (tok, input) => convertToken bits tok input) = .ok (i, r ++ ['\n']) ∧
        '\n' ∉ r) := by
  rcases scanNumber_append_nl buf v hv with ⟨e, e2, h3, h4⟩ | ⟨tok, r, h3, h4, h5⟩
  · left
    rw [h3, h4]
    exact ⟨_, _, rfl, rfl⟩
  · rw [h3, h4]
    simp only []
    rcases convertToken_append_nl bits tok r h5 with ⟨e, e2, h6, h7⟩ | ⟨i, h6, h7, h8⟩
    · left
      exact ⟨_, _, h6, h7⟩
    · right
      exact ⟨_, _, h6, h7, h8⟩

theorem scanInt_append_nl (bits : Nat) (s : Str) (hs : '\n' ∉ s) :
    (∃ e e2, scanInt bits s = .error e ∧ scanInt bits (s ++ ['\n']) = .error e2) ∨
      (∃ i r, scanInt bits s = .ok (i, r) ∧ scanInt bits (s ++ ['\n']) = .ok (i, r ++ ['\n']) ∧
        '\n' ∉ r) := by
  obtain ⟨t, ht, hnt, h1, h2⟩ := SkipSpace_append_nl s hs
  cases t with
  | nil =>
    obtain ⟨e, he⟩ := h1 rfl
    left
    exact ⟨.EOF, e, by simp only [scanInt, ht, notEOF], by simp only [scanInt, he]⟩
  | cons c u =>
    have h2c := h2 (by simp)
    have hu : '\n' ∉ u := fun h => hnt (List.mem_cons_of_mem _ h)
    by_cases hc : sign.contains c = true
    · have e1 : scanInt bits s =
          match scanNumber decimalDigits ([] ++ [c]) u with
          | .error e => (.error e : Except GoError (Int × Str))
          | .ok (tok, input) => convertToken bits tok input := by
        simp only [scanInt, ht, notEOF, accept, hc, if_true]
      have e2 : scanInt bits (s ++ ['\n']) =
          match scanNumber decimalDigits ([] ++ [c]) (u ++ ['\n']) with
          | .error e => (.error e : Except GoError (Int × Str))
          | .ok (tok, input) => convertToken bits tok input := by
        simp only [scanInt, h2c, List.cons_append, notEOF, accept, hc, if_true]
      rw [e1, e2]
      exact scanNumber_convert_append_nl bits _ u hu
    · have e1 : scanInt bits s =
          match scanNumber decimalDigits [] (c :: u) with
          | .error e => (.error e : Except GoError (Int × Str))
          | .ok (tok, input) => convertToken bits tok input := by
        simp only [scanInt, ht, notEOF, accept, hc, Bool.false_eq_true, if_false]
      have e2 : scanInt bits (s ++ ['\n']) =
          match scanNumber decimalDigits [] (c :: u ++ ['\n']) with
          | .error e => (.error e : Except GoError (Int × Str))
          | .ok (tok, input) => convertToken bits tok input := by
        simp only [scanInt, h2c, List.cons_append, notEOF, accept, hc, Bool.false_eq_true,
          if_false]
      rw [e1, e2]
      exact scanNumber_convert_append_nl bits _ (c :: u) hnt

theorem advanceLiteral_append_nl (s : Str) (hs : '\n' ∉ s) :
    (∃ e e2, advanceLiteral '-' s = .error e ∧ advanceLiteral '-' (s ++ ['\n']) = .error e2) ∨
      (∃ r, advanceLiteral '-' s = .ok r ∧ advanceLiteral '-' (s ++ ['\n']) = .ok (r ++ ['\n']) ∧
        '\n' ∉ r) := by
  cases s with
  | nil =>
    left
    exact ⟨_, _, rfl, rfl⟩
  | cons c u =>
    have hu : '\n' ∉ u := fun h => hs (List.mem_cons_of_mem _ h)
    by_cases hc : ('-' != c) = true
    · left
      refine ⟨.errorString "input does not match format".toList,
        .errorString "input does not match format".toList, ?_, ?_⟩
      · simp only [advanceLiteral, hc, if_true]
      · simp only [List.cons_append, advanceLiteral, hc, if_true]
    · right
      refine ⟨u, ?_, ?_, hu⟩
      · simp only [advanceLiteral, hc, Bool.false_eq_true, if_false]
      · simp only [List.cons_append, advanceLiteral, hc, Bool.false_eq_true, if_false]

theorem advanceNewline_append_nl : ∀ s : Str, '\n' ∉ s →
    (∃ e e2, advanceNewline s = .error e ∧ advanceNewline (s ++ ['\n']) = .error e2) ∨
      (∃ r r2, advanceNewline s = .ok r ∧ advanceNewline (s ++ ['\n']) = .ok r2) := by
  intro s
  induction s with
  | nil =>
    intro _
    right
    exact ⟨_, _, rfl, rfl⟩
  | cons c u ih =>
    intro hs
    have hu : '\n' ∉ u := fun h => hs (List.mem_cons_of_mem _ h)
    have hc : (c != '\n') = true := by
      simp only [bne_iff_ne, ne_eq]
      intro h
      exact hs (by rw [h]; simp)
    by_cases hb : (isSpace c && c != '\n') = true
    · rw [List.cons_append, advanceNewline, advanceNewline, if_pos hb, if_pos hb]
      exact ih hu
    · left
      refine ⟨.errorString "newline in format does not match input".toList,
        .errorString "newline in format does not match input".toList, ?_, ?_⟩
      · rw [advanceNewline, if_neg hb, if_pos hc]
      · rw [List.cons_append, advanceNewline, if_neg hb, if_pos hc]

theorem doScanf_append_nl (bits : Nat) (s : Str) (hs : '\n' ∉ s) :
    (((doScanf bits s).n != 2 || (doScanf bits s).err != none) = true ∧
        ((doScanf bits (s ++ ['\n'])).n != 2 || (doScanf bits (s ++ ['\n'])).err != none)
          = true) ∨
      (∃ lo hi, doScanf bits s = ⟨2, none, lo, hi⟩ ∧
        doScanf bits (s ++ ['\n']) = ⟨2, none, lo, hi⟩) := by
  rw [doScanf_eq, doScanf_eq]
  rcases scanInt_append_nl bits s hs with ⟨e, e2, h1, h2⟩ | ⟨i, r, h1, h2, hr⟩
  · left
    rw [h1, h2]
    exact ⟨rfl, rfl⟩
  · rw [h1, h2]
    simp only []
    rcases advanceLiteral_append_nl r hr with ⟨e, e2, h3, h4⟩ | ⟨r3, h3, h4, hr3⟩
    · left
      rw [h3, h4]
      exact ⟨rfl, rfl⟩
    · rw [h3, h4]
      simp only []
      rcases scanInt_append_nl bits r3 hr3 with ⟨e, e2, h5, h6⟩ | ⟨j, r5, h5, h6, hr5⟩
      · left
        rw [h5, h6]
        exact ⟨rfl, rfl⟩
      · rw [h5, h6]
        simp only []
        rcases advanceNewline_append_nl r5 hr5 with ⟨e, e2, h7, h8⟩ | ⟨r6, r7, h7, h8⟩
        · left
          rw [h7, h8]
          exact ⟨rfl, rfl⟩
        · right
          rw [h7, h8]
          exact ⟨_, _, rfl, rfl⟩

/-! ## The inputs the scanner accepts -/

theorem split_dropWhile (p : Char → Bool) (l : Str) :
    ∃ a, l = a ++ l.dropWhile p ∧ ∀ x ∈ a, p x = true :=
  ⟨l.takeWhile p, (List.takeWhile_append_dropWhile p l).symm, fun _ hx => List.mem_takeWhile_imp hx⟩

theorem split_rdropWhile (p : Char → Bool) (l : Str) :
    ∃ b, l = l.rdropWhile p ++ b ∧ ∀ x ∈ b, p x = true := by
  obtain ⟨a, ha, hp⟩ := split_dropWhile p l.reverse
  refine ⟨a.reverse, ?_, fun x hx => hp x (List.mem_reverse.mp hx)⟩
  have := congrArg List.reverse ha
  rw [List.reverse_reverse, List.reverse_append] at this
  exact this

theorem Trim_eq_zero (s : Str) (h : Trim s "\n".toList = "0".toList) : IsZeroForm s := by
  unfold Trim at h
  obtain ⟨b, hb, hpb⟩ := split_rdropWhile (fun r => "\n".toList.contains r) s
  obtain ⟨a, ha, hpa⟩ := split_dropWhile (fun r => "\n".toList.contains r)
    (s.rdropWhile (fun r => "\n".toList.contains r))
  rw [h] at ha
  have hnl : ∀ l : Str, (∀ x ∈ l, (fun r => "\n".toList.contains r) x = true) →
      l = List.replicate l.length '\n' := by
    intro l hl
    apply List.eq_replicate_of_mem
    intro x hx
    have := hl x hx
    simpa using this
  refine ⟨a.length, b.length, ?_⟩
  rw [← hnl a hpa, ← hnl b hpb, hb, ha]
  simp

theorem scanNumber_ok_shape (buf v tok r : Str)
    (h : scanNumber decimalDigits buf v = .ok (tok, r)) :
    ∃ d, v = d ++ r ∧ IsDigits d ∧ d ≠ [] := by
  cases v with
  | nil => simp only [scanNumber, notEOF] at h; cases h
  | cons c w =>
    by_cases hc : decimalDigits.contains c = true
    · simp only [scanNumber, notEOF, accept, hc, if_true, acceptLoop_eq, Except.ok.injEq,
        Prod.mk.injEq] at h
      refine ⟨c :: w.takeWhile (fun r => decimalDigits.contains r), ?_, ?_, by simp⟩
      · rw [← h.2, List.cons_append, List.takeWhile_append_dropWhile]
      · intro x hx
        rcases List.mem_cons.mp hx with rfl | hx
        · exact hc
        · exact List.mem_takeWhile_imp hx
    · simp only [scanNumber, notEOF, accept, hc, Bool.false_eq_true, if_false] at h
      cases h

theorem convertToken_ok_rest (bits : Nat) (tok input : Str) (i : Int) (r : Str)
    (h : convertToken bits tok input = .ok (i, r)) : r = input := by
  unfold convertToken at h
  rcases hp : ParseInt tok 64 with ⟨j, _ | err⟩
  · rw [hp] at h
    by_cases hw : (wrapInt bits j != j) = true
    · simp only [hw, if_true] at h
      cases h
    · simp only [hw, Bool.false_eq_true, if_false, Except.ok.injEq, Prod.mk.injEq] at h
      exact h.2.symm
  · rw [hp] at h
    cases h

theorem scanInt_ok_shape (bits : Nat) (s : Str) (i : Int) (r : Str)
    (h : scanInt bits s = .ok (i, r)) :
    ∃ b g d, s = b ++ g ++ d ++ r ∧ IsBlanks b ∧ IsSignOpt g ∧ IsDigits d ∧ d ≠ [] := by
  unfold scanInt at h
  rcases hs : SkipSpace s with e | t
  · rw [hs] at h
    cases h
  · rw [hs] at h
    obtain ⟨⟨b, hb, hbl⟩, _⟩ := SkipSpace_ok_shape s t hs
    cases t with
    | nil => simp only [notEOF] at h; cases h
    | cons c u =>
      simp only [notEOF] at h
      by_cases hc : sign.contains c = true
      · simp only [accept, hc, if_true] at h
        rcases hn : scanNumber decimalDigits ([] ++ [c]) u with e | ⟨tok, r2⟩
        · rw [hn] at h
          cases h
        · rw [hn] at h
          simp only [] at h
          have hr := convertToken_ok_rest bits tok r2 i r h
          obtain ⟨d, hd, hdig, hne⟩ := scanNumber_ok_shape _ _ _ _ hn
          refine ⟨b, [c], d, ?_, hbl, ?_, hdig, hne⟩
          · rw [hb, hd, hr]
            simp
          · simp [sign] at hc
            rcases hc with rfl | rfl
            · exact Or.inr (Or.inl rfl)
            · exact Or.inr (Or.inr rfl)
      · simp only [accept, hc, Bool.false_eq_true, if_false] at h
        rcases hn : scanNumber decimalDigits [] (c :: u) with e | ⟨tok, r2⟩
        · rw [hn] at h
          cases h
        · rw [hn] at h
          simp only [] at h
          have hr := convertToken_ok_rest bits tok r2 i r h
          obtain ⟨d, hd, hdig, hne⟩ := scanNumber_ok_shape _ _ _ _ hn
          refine ⟨b, [], d, ?_, hbl, Or.inl rfl, hdig, hne⟩
          rw [hb, hd, hr]
          simp

theorem advanceLiteral_ok_shape (s r : Str) (h : advanceLiteral '-' s = .ok r) :
    s = '-' :: r := by
  cases s with
  | nil => cases h
  | cons c u =>
    by_cases hc : ('-' != c) = true
    · simp only [advanceLiteral, hc, if_true] at h
      cases h
    · simp only [advanceLiteral, hc, Bool.false_eq_true, if_false, Except.ok.injEq] at h
      have hceq : '-' = c := by simpa using hc
      rw [← hceq, h]

theorem advanceNewline_ok_shape : ∀ (s r : Str), advanceNewline s = .ok r →
    ∃ b rest, s = b ++ rest ∧ IsBlanks b ∧ (rest = [] ∨ rest.head? = some '\n') := by
  intro s
  induction s with
  | nil =>
    intro r _
    exact ⟨[], [], rfl, fun c hc => by simp at hc, Or.inl rfl⟩
  | cons c u ih =>
    intro r h
    rw [advanceNewline] at h
    by_cases hb : (isSpace c && c != '\n') = true
    · rw [if_pos hb] at h
      obtain ⟨b, rest, h1, h2, h3⟩ := ih r h
      refine ⟨c :: b, rest, by rw [h1]; rfl, ?_, h3⟩
      intro x hx
      rcases List.mem_cons.mp hx with rfl | hx
      · exact hb
      · exact h2 x hx
    · rw [if_neg hb] at h
      by_cases hc : (c != '\n') = true
      · rw [if_pos hc] at h
        cases h
      · refine ⟨[], c :: u, rfl, fun x hx => by simp at hx, Or.inr ?_⟩
        have : c = '\n' := by simpa using hc
        rw [this]
        rfl

theorem doScanf_fails_of_not_rangeForm (bits : Nat) (s : Str) (hs : ¬ IsRangeForm s) :
    ((doScanf bits s).n != 2 || (doScanf bits s).err != none) = true := by
  rw [doScanf_eq]
  rcases h1 : scanInt bits s with e | ⟨low, s2⟩
  · rfl
  · simp only []
    rcases h2 : advanceLiteral '-' s2 with e | s3
    · rfl
    · simp only []
      rcases h3 : scanInt bits s3 with e | ⟨high, s5⟩
      · rfl
      · simp only []
        rcases h4 : advanceNewline s5 with e | s6
        · rfl
        · exfalso
          apply hs
          obtain ⟨b1, g1, d1, e1, hb1, hg1, hd1, hn1⟩ := scanInt_ok_shape bits s low s2 h1
          have e2 := advanceLiteral_ok_shape s2 s3 h2
          obtain ⟨b2, g2, d2, e3, hb2, hg2, hd2, hn2⟩ := scanInt_ok_shape bits s3 high s5 h3
          obtain ⟨b3, rest, e4, hb3, hrest⟩ := advanceNewline_ok_shape s5 s6 h4
          refine ⟨b1, g1, d1, b2, g2, d2, b3, rest, ?_, hb1, hg1, hd1, hn1, hb2, hg2, hd2, hn2,
            hb3, hrest⟩
          rw [e1, e2, e3, e4]

/-! ## The rune limit of the scanner -/

theorem Sscanf_of_short (bits : Nat) (s : Str) (h : s.length ≤ hugeWid) :
    Sscanf bits s = doScanf bits s := by
  unfold Sscanf
  rw [List.take_of_length_le h]

theorem decimal_length_le (n e : Nat) (h : n < 10 ^ e) (he : 0 < e) : (decimal n).length ≤ e :=
  Nat.toDigitsCore_length 10 (by decide) (n + 1) n e h he

theorem digitsVal_ge (ds : Str) : ∀ a, a * 10 ^ ds.length ≤ digitsVal a ds := by
  induction ds with
  | nil => intro a; simp [digitsVal]
  | cons c cs ih =>
    intro a
    have h := ih (a * 10 + (c.toNat - 48))
    have hval : digitsVal a (c :: cs) = digitsVal (a * 10 + (c.toNat - 48)) cs := by
      simp [digitsVal]
    rw [hval, List.length_cons, pow_succ]
    calc a * (10 ^ cs.length * 10) = a * 10 * 10 ^ cs.length := by ring
      _ ≤ (a * 10 + (c.toNat - 48)) * 10 ^ cs.length :=
        Nat.mul_le_mul_right _ (Nat.le_add_right _ _)
      _ ≤ _ := h

theorem toDigitsCore_head : ∀ (fuel n : Nat), n < fuel → n ≠ 0 →
    ∃ c cs, Nat.toDigitsCore 10 fuel n [] = c :: cs ∧ 49 ≤ c.toNat := by
  intro fuel
  induction fuel with
  | zero => intro n h; omega
  | succ fuel ih =>
    intro n hn h0
    simp only [Nat.toDigitsCore]
    split
    · rename_i hq
      refine ⟨_, [], rfl, ?_⟩
      have hlt : n % 10 < 10 := Nat.mod_lt _ (by decide)
      rw [digitChar_toNat _ hlt]
      omega
    · rename_i hq
      obtain ⟨c, cs, hc, hc49⟩ := ih (n / 10) (by omega) hq
      rw [toDigitsCore_acc, hc]
      exact ⟨c, cs ++ [Nat.digitChar (n % 10)], rfl, hc49⟩

theorem digitsVal_take_decimal (n k : Nat) (hk1 : 2 ≤ k) (hk2 : k ≤ (decimal n).length) :
    10 ^ (k - 1) ≤ digitsVal 0 (List.take k (decimal n)) := by
  have hn : n ≠ 0 := by
    rintro rfl
    have : (decimal 0).length = 1 := rfl
    omega
  obtain ⟨c, cs, hc, hc49⟩ := toDigitsCore_head (n + 1) n (Nat.lt_succ_self n) hn
  have hdec : decimal n = c :: cs := hc
  rw [hdec] at hk2 ⊢
  obtain ⟨m, rfl⟩ : ∃ m, k = m + 1 := ⟨k - 1, by omega⟩
  rw [List.take_succ_cons]
  have hval : digitsVal 0 (c :: List.take m cs) = digitsVal (c.toNat - 48) (List.take m cs) := by
    simp [digitsVal]
  have hlen : (List.take m cs).length = m := by
    rw [List.length_take]
    simp only [List.length_cons] at hk2
    omega
  have hge := digitsVal_ge (List.take m cs) (c.toNat - 48)
  rw [hlen] at hge
  rw [hval]
  calc 10 ^ (m + 1 - 1) = 1 * 10 ^ m := by simp
    _ ≤ (c.toNat - 48) * 10 ^ m := Nat.mul_le_mul_right _ (by omega)
    _ ≤ _ := hge

theorem isDigits_take (ds : Str) (k : Nat) (hd : IsDigits ds) : IsDigits (List.take k ds) :=
  fun c hc => hd c (List.mem_of_mem_take hc)

theorem scanInt_digits_overflow64 (bits : Nat) (ds rest : Str) (hd : IsDigits ds) (hne : ds ≠ [])
    (hrest : peek decimalDigits rest = false) (hv : 2 ^ 63 ≤ digitsVal 0 ds) :
    ∃ e, scanInt bits (ds ++ rest) = .error e := by
  have h63 : ¬ digitsVal 0 ds < 2 ^ (64 - 1) := by
    norm_num at hv ⊢
    exact hv
  rw [scanInt_digits bits ds rest hd hne hrest, ParseInt_digits 64 (Or.inr rfl) ds hd hne,
    if_neg h63]
  exact ⟨_, rfl⟩

theorem doScanf_fails_digits_only (bits : Nat) (ds : Str) (hd : IsDigits ds) :
    ((doScanf bits ds).n != 2 || (doScanf bits ds).err != none) = true := by
  cases ds with
  | nil => rfl
  | cons c cs =>
    have h := scanInt_digits_cases bits (c :: cs) [] hd (by simp) rfl
    rw [List.append_nil] at h
    have hs := SkipSpace_digits (c :: cs) [] hd (by simp)
    rw [List.append_nil] at hs
    rcases h with ⟨e, he⟩ | ⟨i, hi⟩
    · simp only [doScanf, hs, he]
      rfl
    · simp only [doScanf, hs, hi, advanceLiteral]
      rfl

theorem take_range (N : Nat) (d1 X : Str) :
    List.take N (d1 ++ '-' :: X) =
      if N ≤ d1.length then List.take N d1 else d1 ++ '-' :: List.take (N - d1.length - 1) X := by
  rw [List.take_append_eq_append_take]
  split
  · rename_i h
    rw [Nat.sub_eq_zero_of_le h, List.take_zero, List.append_nil]
  · rename_i h
    obtain ⟨m, hm⟩ : ∃ m, N - d1.length = m + 1 := ⟨N - d1.length - 1, by omega⟩
    rw [List.take_of_length_le (by omega), hm, List.take_succ_cons]
    simp

theorem take_append_cases (k : Nat) (d2 Y : Str) :
    List.take k (d2 ++ Y) =
      if k ≤ d2.length then List.take k d2 else d2 ++ List.take (k - d2.length) Y := by
  rw [List.take_append_eq_append_take]
  split
  · rename_i h
    rw [Nat.sub_eq_zero_of_le h, List.take_zero, List.append_nil]
  · rename_i h
    rw [List.take_of_length_le (by omega)]

theorem pow63_le_pow19 : 2 ^ 63 ≤ 10 ^ 19 := by norm_num

theorem Sscanf_fails_after_number (bits : Nat) (ds : Str) (c : Char) (rest : Str)
    (hd : IsDigits ds) (hne : ds ≠ []) (hc1 : decimalDigits.contains c = false)
    (hc2 : c ≠ '-') :
    ((Sscanf bits (ds ++ c :: rest)).n != 2 || (Sscanf bits (ds ++ c :: rest)).err != none)
      = true := by
  unfold Sscanf
  rw [take_append_cases]
  split
  · exact doScanf_fails_digits_only bits _ (isDigits_take ds _ hd)
  · rename_i h
    obtain ⟨m, hm⟩ : ∃ m, hugeWid - ds.length = m + 1 := ⟨hugeWid - ds.length - 1, by omega⟩
    rw [hm, List.take_succ_cons]
    exact doScanf_fails_after_number bits ds c _ hd hne hc1 hc2

theorem doScanf_fails_truncated (bits lo hi k : Nat) (hk : k ≤ (decimal hi).length)
    (hN : (decimal lo).length + 1 + k = hugeWid) :
    ((doScanf bits (decimal lo ++ '-' :: List.take k (decimal hi))).n != 2 ||
      (doScanf bits (decimal lo ++ '-' :: List.take k (decimal hi))).err != none) = true := by
  have hp : peek decimalDigits ('-' :: List.take k (decimal hi)) = false := by
    show decimalDigits.contains '-' = false
    decide
  have hs1 := SkipSpace_digits (decimal lo) ('-' :: List.take k (decimal hi))
    (decimal_isDigits lo) (decimal_ne_nil lo)
  have hhuge : hugeWid = 1073741824 := by norm_num [hugeWid]
  by_cases hlen : (decimal lo).length ≤ 19
  · have hk20 : 20 ≤ k := by omega
    have hval := digitsVal_take_decimal hi k (by omega) hk
    have hpow : 10 ^ 19 ≤ 10 ^ (k - 1) := Nat.pow_le_pow_right (by decide) (by omega)
    have hbig : 2 ^ 63 ≤ digitsVal 0 (List.take k (decimal hi)) :=
      le_trans pow63_le_pow19 (le_trans hpow hval)
    have hQd := isDigits_take (decimal hi) k (decimal_isDigits hi)
    have hQne : List.take k (decimal hi) ≠ [] := by
      intro h
      have := congrArg List.length h
      rw [List.length_take] at this
      simp only [List.length_nil] at this
      omega
    obtain ⟨e, he⟩ := scanInt_digits_overflow64 bits _ [] hQd hQne rfl hbig
    rw [List.append_nil] at he
    have hs2 := SkipSpace_digits _ [] hQd hQne
    rw [List.append_nil] at hs2
    rcases scanInt_digits_cases bits (decimal lo) _ (decimal_isDigits lo) (decimal_ne_nil lo) hp
      with ⟨e1, he1⟩ | ⟨i, hi1⟩
    · simp only [doScanf, hs1, he1]
      rfl
    · simp only [doScanf, hs1, hi1, advanceLiteral, bne_self_eq_false, Bool.false_eq_true,
        if_false, hs2, he]
      rfl
  · have hlo : 10 ^ 19 ≤ lo := by
      by_contra h
      exact hlen (decimal_length_le lo 19 (by omega) (by decide))
    have hbig : 2 ^ 63 ≤ digitsVal 0 (decimal lo) := by
      rw [digitsVal_decimal]
      exact le_trans pow63_le_pow19 hlo
    obtain ⟨e, he⟩ := scanInt_digits_overflow64 bits (decimal lo) _ (decimal_isDigits lo)
      (decimal_ne_nil lo) hp hbig
    simp only [doScanf, hs1, he]
    rfl

theorem Sscanf_fails_after_range (bits lo hi : Nat) (c : Char) (rest : Str)
    (hc1 : decimalDigits.contains c = false) (hc2 : isSpace c = false) :
    ((Sscanf bits (decimal lo ++ '-' :: (decimal hi ++ c :: rest))).n != 2 ||
      (Sscanf bits (decimal lo ++ '-' :: (decimal hi ++ c :: rest))).err != none) = true := by
  unfold Sscanf
  rw [take_range]
  split
  · exact doScanf_fails_digits_only bits _ (isDigits_take _ _ (decimal_isDigits lo))
  · rename_i h1
    rw [take_append_cases]
    split
    · rename_i h2
      exact doScanf_fails_truncated bits lo hi _ h2 (by omega)
    · rename_i h2
      obtain ⟨m, hm⟩ : ∃ m, hugeWid - (decimal lo).length - 1 - (decimal hi).length = m + 1 :=
        ⟨hugeWid - (decimal lo).length - 1 - (decimal hi).length - 1, by omega⟩
      rw [hm, List.take_succ_cons]
      exact doScanf_fails_after_range bits _ _ c _ (decimal_isDigits lo) (decimal_ne_nil lo)
        (decimal_isDigits hi) (decimal_ne_nil hi) hc1 hc2

theorem Sscanf_fails_after_range_short (bits : Nat) (d1 d2 : Str) (c : Char) (rest : Str)
    (h1 : IsDigits d1) (n1 : d1 ≠ []) (h2 : IsDigits d2) (n2 : d2 ≠ [])
    (hc1 : decimalDigits.contains c = false) (hc2 : isSpace c = false)
    (hlen : d1.length + d2.length + 1 < hugeWid) :
    ((Sscanf bits (d1 ++ '-' :: (d2 ++ c :: rest))).n != 2 ||
      (Sscanf bits (d1 ++ '-' :: (d2 ++ c :: rest))).err != none) = true := by
  unfold Sscanf
  rw [take_range, if_neg (by omega), take_append_cases, if_neg (by omega)]
  obtain ⟨m, hm⟩ : ∃ m, hugeWid - d1.length - 1 - d2.length = m + 1 :=
    ⟨hugeWid - d1.length - 1 - d2.length - 1, by omega⟩
  rw [hm, List.take_succ_cons]
  exact doScanf_fails_after_range bits d1 d2 c _ h1 n1 h2 n2 hc1 hc2

theorem optNewline_length (nl : Bool) : (optNewline nl).length ≤ 1 := by
  cases nl <;> decide

theorem Sscanf_fails_range_long (bits lo hi : Nat) (nl : Bool)
    (hlong : hugeWid < (decimal lo ++ '-' :: (decimal hi ++ optNewline nl)).length) :
    ((Sscanf bits (decimal lo ++ '-' :: (decimal hi ++ optNewline nl))).n != 2 ||
      (Sscanf bits (decimal lo ++ '-' :: (decimal hi ++ optNewline nl))).err != none)
      = true := by
  have hnl := optNewline_length nl
  simp only [List.length_append, List.length_cons] at hlong
  unfold Sscanf
  rw [take_range]
  split
  · exact doScanf_fails_digits_only bits _ (isDigits_take _ _ (decimal_isDigits lo))
  · rename_i h1
    rw [take_append_cases, if_pos (by omega)]
    exact doScanf_fails_truncated bits lo hi _ (by omega) (by omega)

theorem fits_length (bits : Nat) (hb : bits = 32 ∨ bits = 64) (n : Nat)
    (h : n < 2 ^ (bits - 1)) : (decimal n).length ≤ 19 := by
  apply decimal_length_le n 19 _ (by decide)
  have h63 : n < 2 ^ 63 := by
    rcases hb with rfl | rfl
    · exact lt_trans h (by norm_num)
    · exact h
  exact lt_of_lt_of_le h63 pow63_le_pow19

theorem Sscanf_append_nl (bits : Nat) (s : Str) (hs : '\n' ∉ s) :
    (((Sscanf bits s).n != 2 || (Sscanf bits s).err != none) = true ∧
        ((Sscanf bits (s ++ ['\n'])).n != 2 || (Sscanf bits (s ++ ['\n'])).err != none)
          = true) ∨
      (∃ lo hi, Sscanf bits s = ⟨2, none, lo, hi⟩ ∧
        Sscanf bits (s ++ ['\n']) = ⟨2, none, lo, hi⟩) := by
  by_cases hl : s.length < hugeWid
  · have e1 : Sscanf bits s = doScanf bits s := Sscanf_of_short bits s (by omega)
    have e2 : Sscanf bits (s ++ ['\n']) = doScanf bits (s ++ ['\n']) :=
      Sscanf_of_short bits _ (by simp only [List.length_append, List.length_singleton]; omega)
    rw [e1, e2]
    exact doScanf_append_nl bits s hs
  · have e : Sscanf bits (s ++ ['\n']) = Sscanf bits s := by
      unfold Sscanf
      rw [List.take_append_of_le_length (by omega)]
    rw [e]
    by_cases hf : ((Sscanf bits s).n != 2 || (Sscanf bits s).err != none) = true
    · exact Or.inl ⟨hf, hf⟩
    · right
      simp only [Bool.or_eq_true, bne_iff_ne, ne_eq, not_or, not_not] at hf
      refine ⟨(Sscanf bits s).low, (Sscanf bits s).high, ?_, ?_⟩ <;>
      · rcases hr : Sscanf bits s with ⟨n, err, lo, hi⟩
        rw [hr] at hf
        simp only at hf
        rw [hf.1, hf.2]

/-! ## Signed tokens -/

theorem ParseUint_digits (ds : Str) (hd : IsDigits ds) (hne : ds ≠ []) :
    ParseUint ds 64 =
      if digitsVal 0 ds ≤ 18446744073709551615 then (digitsVal 0 ds, none)
      else (18446744073709551615, some (rangeError "ParseUint".toList ds)) := by
  have hloop := ParseUintLoop_digits ds (2 ^ 64 - 1) (by norm_num) ds 0 hd (Nat.zero_le _)
  have e1 : (2 : Nat) ^ 64 - 1 = 18446744073709551615 := by norm_num
  rw [e1] at hloop
  unfold ParseUint
  rw [if_neg hne, e1, hloop]

theorem wrapInt_ge (bits : Nat) (hb : bits = 32 ∨ bits = 64) (x : Int) :
    -((2 ^ (bits - 1) : Nat) : Int) ≤ wrapInt bits x := by
  rcases hb with rfl | rfl <;> simp only [wrapInt] <;> norm_num <;> omega

theorem fitsInt_iff (bits : Nat) (x : Int) :
    fitsInt bits x = true ↔
      -((2 ^ (bits - 1) : Nat) : Int) ≤ x ∧ x < ((2 ^ (bits - 1) : Nat) : Int) := by
  simp only [fitsInt, Bool.and_eq_true, decide_eq_true_eq]

theorem wrapInt_eq_iff (bits : Nat) (hb : bits = 32 ∨ bits = 64) (x : Int) :
    wrapInt bits x = x ↔ fitsInt bits x = true := by
  rw [fitsInt_iff]
  constructor
  · intro h
    have h1 := wrapInt_ge bits hb x
    have h2 := wrapInt_lt bits hb x
    rw [h] at h1 h2
    exact ⟨h1, h2⟩
  · rintro ⟨h1, h2⟩
    exact wrapInt_of_range bits hb x h1 h2

theorem ParseInt_plus (ds : Str) (hd : IsDigits ds) (hne : ds ≠ []) :
    ParseInt ('+' :: ds) 64 =
      if digitsVal 0 ds < 9223372036854775808 then ((digitsVal 0 ds : Int), none)
      else ((9223372036854775807 : Int), some (rangeError "ParseInt".toList ('+' :: ds))) := by
  have hpu := ParseUint_digits ds hd hne
  have hs : (if (('+' :: ds).head? == some '+' || ('+' :: ds).head? == some '-') = true
      then ('+' :: ds).tail else ('+' :: ds)) = ds := rfl
  have hneg : (('+' :: ds).head? == some '-') = false := rfl
  simp only [ParseInt, hs]
  rw [if_neg (List.cons_ne_nil _ _)]
  simp only [hneg, hpu]
  generalize digitsVal 0 ds = v
  have hw : v < 2 ^ 63 → wrapInt 64 (v : Int) = v := by
    intro hv
    apply wrapInt_of_range 64 (Or.inr rfl) <;> norm_num at * <;> omega
  simp only [Bool.not_false, Bool.true_and, Bool.false_and, decide_eq_true_eq, Bool.false_eq_true,
    if_false]
  have e2 : (2 : Nat) ^ (64 - 1) = 9223372036854775808 := by norm_num
  rw [e2]
  by_cases h1 : v ≤ 18446744073709551615
  · rw [if_pos h1]
    by_cases h2 : v < 9223372036854775808
    · rw [if_pos h2]
      simp only []
      rw [if_neg (show ¬ v ≥ 9223372036854775808 by omega), hw (by omega)]
    · rw [if_neg h2]
      simp only []
      rw [if_pos (show v ≥ 9223372036854775808 by omega)]
      rfl
  · rw [if_neg h1, if_neg (show ¬ v < 9223372036854775808 by omega)]
    simp only [rangeError]
    rw [if_pos (show 18446744073709551615 ≥ 9223372036854775808 by omega)]
    rfl

theorem ParseInt_minus (ds : Str) (hd : IsDigits ds) (hne : ds ≠ []) :
    ParseInt ('-' :: ds) 64 =
      if digitsVal 0 ds ≤ 9223372036854775808 then (-(digitsVal 0 ds : Int), none)
      else ((-9223372036854775808 : Int), some (rangeError "ParseInt".toList ('-' :: ds))) := by
  have hpu := ParseUint_digits ds hd hne
  have hs : (if (('-' :: ds).head? == some '+' || ('-' :: ds).head? == some '-') = true
      then ('-' :: ds).tail else ('-' :: ds)) = ds := rfl
  have hneg : (('-' :: ds).head? == some '-') = true := rfl
  simp only [ParseInt, hs]
  rw [if_neg (List.cons_ne_nil _ _)]
  simp only [hneg, hpu]
  generalize digitsVal 0 ds = v
  have hw : v ≤ 2 ^ 63 → wrapInt 64 (-(wrapInt 64 (v : Int))) = -(v : Int) := by
    intro hv
    simp only [wrapInt]
    norm_num at *
    omega
  simp only [Bool.not_true, Bool.true_and, Bool.false_and, decide_eq_true_eq, Bool.false_eq_true,
    if_false, if_true]
  have e2 : (2 : Nat) ^ (64 - 1) = 9223372036854775808 := by norm_num
  rw [e2]
  by_cases h1 : v ≤ 18446744073709551615
  · rw [if_pos h1]
    by_cases h2 : v ≤ 9223372036854775808
    · rw [if_pos h2]
      simp only []
      rw [if_neg (show ¬ v > 9223372036854775808 by omega), hw (by norm_num; omega)]
    · rw [if_neg h2]
      simp only []
      rw [if_pos (show v > 9223372036854775808 by omega)]
      rfl
  · rw [if_neg h1, if_neg (show ¬ v ≤ 9223372036854775808 by omega)]
    simp only [rangeError]
    rw [if_pos (show 18446744073709551615 > 9223372036854775808 by omega)]
    rfl

theorem ParseInt_signed (g d : Str) (hg : IsSignOpt g) (hd : IsDigits d) (hne : d ≠ []) :
    (fitsInt 64 (signedVal g d) = true ∧ ParseInt (g ++ d) 64 = (signedVal g d, none)) ∨
      (fitsInt 64 (signedVal g d) = false ∧ ∃ i e, ParseInt (g ++ d) 64 = (i, some e)) := by
  have hnn : (0 : Int) ≤ ((digitsVal 0 d : Nat) : Int) := Int.natCast_nonneg _
  have e2 : (2 : Nat) ^ (64 - 1) = 9223372036854775808 := by norm_num
  rcases hg with rfl | rfl | rfl
  · have hsv : signedVal [] d = ((digitsVal 0 d : Nat) : Int) := rfl
    rw [List.nil_append, ParseInt_digits 64 (Or.inr rfl) d hd hne, hsv, e2]
    by_cases h : digitsVal 0 d < 9223372036854775808
    · left
      rw [if_pos h]
      refine ⟨?_, rfl⟩
      rw [fitsInt_iff, e2]
      constructor <;> push_cast <;> omega
    · right
      rw [if_neg h]
      refine ⟨?_, _, _, rfl⟩
      rw [← Bool.not_eq_true, fitsInt_iff, e2]
      push_cast
      omega
  · have hsv : signedVal ['+'] d = ((digitsVal 0 d : Nat) : Int) := rfl
    rw [List.singleton_append, ParseInt_plus d hd hne, hsv]
    by_cases h : digitsVal 0 d < 9223372036854775808
    · left
      rw [if_pos h]
      refine ⟨?_, rfl⟩
      rw [fitsInt_iff, e2]
      constructor <;> push_cast <;> omega
    · right
      rw [if_neg h]
      refine ⟨?_, _, _, rfl⟩
      rw [← Bool.not_eq_true, fitsInt_iff, e2]
      push_cast
      omega
  · have hsv : signedVal ['-'] d = -((digitsVal 0 d : Nat) : Int) := rfl
    rw [List.singleton_append, ParseInt_minus d hd hne, hsv]
    by_cases h : digitsVal 0 d ≤ 9223372036854775808
    · left
      rw [if_pos h]
      refine ⟨?_, rfl⟩
      rw [fitsInt_iff, e2]
      constructor <;> push_cast <;> omega
    · right
      rw [if_neg h]
      refine ⟨?_, _, _, rfl⟩
      rw [← Bool.not_eq_true, fitsInt_iff, e2]
      push_cast
      omega

theorem fitsInt_of_64 (bits : Nat) (hb : bits = 32 ∨ bits = 64) (x : Int)
    (h : fitsInt bits x = true) : fitsInt 64 x = true := by
  rw [fitsInt_iff] at h ⊢
  rcases hb with rfl | rfl
  · norm_num at h ⊢
    omega
  · exact h

theorem convertToken_signed (bits : Nat) (hb : bits = 32 ∨ bits = 64) (g d rest : Str)
    (hg : IsSignOpt g) (hd : IsDigits d) (hne : d ≠ []) :
    (fitsInt bits (signedVal g d) = true ∧
        convertToken bits (g ++ d) rest = .ok (signedVal g d, rest)) ∨
      (fitsInt bits (signedVal g d) = false ∧ ∃ e, convertToken bits (g ++ d) rest = .error e) := by
  rcases ParseInt_signed g d hg hd hne with ⟨_, hp⟩ | ⟨h64, i, e, hp⟩
  · by_cases hf : fitsInt bits (signedVal g d) = true
    · left
      refine ⟨hf, ?_⟩
      have hw := (wrapInt_eq_iff bits hb _).mpr hf
      unfold convertToken
      rw [hp]
      simp only [hw, bne_self_eq_false, Bool.false_eq_true, if_false]
    · right
      have hw : wrapInt bits (signedVal g d) ≠ signedVal g d :=
        fun h => hf ((wrapInt_eq_iff bits hb _).mp h)
      refine ⟨by simpa using hf, ?_⟩
      unfold convertToken
      rw [hp]
      simp only [bne_iff_ne, ne_eq, hw, not_false_eq_true, if_true]
      exact ⟨_, rfl⟩
  · right
    constructor
    · by_contra hf
      have := fitsInt_of_64 bits hb _ (by simpa using hf)
      rw [h64] at this
      cases this
    · unfold convertToken
      rw [hp]
      exact ⟨_, rfl⟩

theorem scanNumber_digits (buf ds rest : Str) (hd : IsDigits ds) (hne : ds ≠ [])
    (hrest : peek decimalDigits rest = false) :
    scanNumber decimalDigits buf (ds ++ rest) = .ok (buf ++ ds, rest) := by
  obtain ⟨c, cs, rfl⟩ := List.exists_cons_of_ne_nil hne
  have hc : decimalDigits.contains c = true := hd c (by simp)
  have hcs : ∀ a ∈ cs, (fun r => decimalDigits.contains r) a = true :=
    fun a ha => hd a (by simp [ha])
  have htake : (cs ++ rest).takeWhile (fun r => decimalDigits.contains r) = cs := by
    rw [List.takeWhile_append_of_pos hcs]
    cases rest with
    | nil => simp
    | cons x xs =>
      simp only [peek] at hrest
      rw [List.takeWhile_cons_of_neg (by rw [hrest]; exact Bool.false_ne_true), List.append_nil]
  have hdrop : (cs ++ rest).dropWhile (fun r => decimalDigits.contains r) = rest := by
    rw [List.dropWhile_append_of_pos hcs]
    cases rest with
    | nil => simp
    | cons x xs =>
      simp only [peek] at hrest
      rw [List.dropWhile_cons_of_neg (by rw [hrest]; exact Bool.false_ne_true)]
  simp only [scanNumber, notEOF, List.cons_append, accept, hc, if_true, acceptLoop_eq, htake,
    hdrop, List.append_assoc, List.singleton_append, List.nil_append]

theorem SkipSpace_signed (g d rest : Str) (hg : IsSignOpt g) (hd : IsDigits d) (hne : d ≠ []) :
    SkipSpace (g ++ d ++ rest) = .ok (g ++ d ++ rest) := by
  rcases hg with rfl | rfl | rfl
  · exact SkipSpace_digits d rest hd hne
  · show SkipSpace ('+' :: (d ++ rest)) = _
    rw [SkipSpace_cons]
    rfl
  · show SkipSpace ('-' :: (d ++ rest)) = _
    rw [SkipSpace_cons]
    rfl

theorem scanInt_signed (bits : Nat) (g d rest : Str) (hg : IsSignOpt g) (hd : IsDigits d)
    (hne : d ≠ []) (hrest : peek decimalDigits rest = false) :
    scanInt bits (g ++ d ++ rest) = convertToken bits (g ++ d) rest := by
  have hskip := SkipSpace_signed g d rest hg hd hne
  rcases hg with rfl | rfl | rfl
  · exact scanInt_digits bits d rest hd hne hrest
  · have hnum := scanNumber_digits ['+'] d rest hd hne hrest
    have hsign : accept sign [] ('+' :: (d ++ rest)) = (true, ['+'], d ++ rest) := rfl
    unfold scanInt
    rw [hskip]
    show (match accept sign [] ('+' :: (d ++ rest)) with
      | (_, buf, input) =>
        match scanNumber decimalDigits buf input with
        | .error e => (.error e : Except GoError (Int × Str))
        | .ok (tok, input) => convertToken bits tok input) = _
    rw [hsign]
    simp only [hnum]
  · have hnum := scanNumber_digits ['-'] d rest hd hne hrest
    have hsign : accept sign [] ('-' :: (d ++ rest)) = (true, ['-'], d ++ rest) := rfl
    unfold scanInt
    rw [hskip]
    show (match accept sign [] ('-' :: (d ++ rest)) with
      | (_, buf, input) =>
        match scanNumber decimalDigits buf input with
        | .error e => (.error e : Except GoError (Int × Str))
        | .ok (tok, input) => convertToken bits tok input) = _
    rw [hsign]
    simp only [hnum]

theorem signOpt_length (g : Str) (hg : IsSignOpt g) : g.length ≤ 1 := by
  rcases hg with rfl | rfl | rfl <;> simp

theorem doScanf_first_error (bits : Nat) (s : Str) (e : GoError)
    (h : scanInt bits s = .error e) :
    ((doScanf bits s).n != 2 || (doScanf bits s).err != none) = true := by
  rw [doScanf_eq, h]
  rfl

theorem doScanf_low (bits : Nat) (s : Str) (i : Int) (s2 : Str)
    (h : scanInt bits s = .ok (i, s2)) :
    ((doScanf bits s).n != 2 || (doScanf bits s).err != none) = true ∨
      ∃ hi, doScanf bits s = ⟨2, none, wrapInt bits i, hi⟩ := by
  rw [doScanf_eq, h]
  simp only []
  rcases advanceLiteral '-' s2 with e | s3
  · left; rfl
  · simp only []
    rcases scanInt bits s3 with e | ⟨high, s5⟩
    · left; rfl
    · simp only []
      rcases advanceNewline s5 with e | s6
      · left; simp
      · right; exact ⟨_, rfl⟩

theorem doScanf_fails_token (bits : Nat) (g d : Str) (hg : IsSignOpt g) (hd : IsDigits d)
    (hne : d ≠ []) :
    ((doScanf bits (g ++ d)).n != 2 || (doScanf bits (g ++ d)).err != none) = true := by
  have h := scanInt_signed bits g d [] hg hd hne rfl
  rw [List.append_nil] at h
  rcases hc : convertToken bits (g ++ d) [] with e | ⟨i, r⟩
  · exact doScanf_first_error bits _ e (h.trans hc)
  · have hr := convertToken_ok_rest bits _ _ i r hc
    subst hr
    rw [doScanf_eq, h, hc]
    rfl

theorem parseCPUs_not_zero (bits : Nat) (spec : Str) (lo hi : Int)
    (ht : (Trim spec "\n".toList == "0".toList) = false)
    (hs : Sscanf bits spec = ⟨2, none, lo, hi⟩) (hlo : lo ≠ 0) :
    parseCPUs bits spec =
      (0, some (.errorString ("CPU spec doesn't start at zero: ".toList ++ spec))) := by
  have hl : (lo != 0) = true := by simpa using hlo
  simp only [parseCPUs, ht, hs, hl]
  simp

theorem signedRange_eq (g1 d1 g2 d2 : Str) (nl : Bool) :
    signedRange g1 d1 g2 d2 nl = g1 ++ d1 ++ '-' :: (g2 ++ d2 ++ optNewline nl) := by
  simp [signedRange]

theorem peek_minus (X : Str) : peek decimalDigits ('-' :: X) = false := by
  show decimalDigits.contains '-' = false
  decide

theorem Sscanf_signed_low (bits : Nat) (hb : bits = 32 ∨ bits = 64) (g1 d1 X : Str)
    (hg1 : IsSignOpt g1) (hd1 : IsDigits d1) (hn1 : d1 ≠ []) :
    ((Sscanf bits (g1 ++ d1 ++ '-' :: X)).n != 2 ||
        (Sscanf bits (g1 ++ d1 ++ '-' :: X)).err != none) = true ∨
      ∃ hi, Sscanf bits (g1 ++ d1 ++ '-' :: X) = ⟨2, none, signedVal g1 d1, hi⟩ := by
  have hhuge : hugeWid = 1073741824 := by norm_num [hugeWid]
  have hgl := signOpt_length g1 hg1
  unfold Sscanf
  rw [take_range]
  by_cases hN : hugeWid ≤ (g1 ++ d1).length
  · left
    rw [if_pos hN, take_append_cases, if_neg (by omega)]
    apply doScanf_fails_token bits g1 _ hg1 (isDigits_take d1 _ hd1)
    intro h
    have hl := congrArg List.length h
    rw [List.length_take, List.length_nil] at hl
    have : 0 < d1.length := List.length_pos.mpr hn1
    omega
  · rw [if_neg hN]
    have hs := scanInt_signed bits g1 d1 ('-' :: List.take (hugeWid - (g1 ++ d1).length - 1) X)
      hg1 hd1 hn1 (peek_minus _)
    rcases convertToken_signed bits hb g1 d1
        ('-' :: List.take (hugeWid - (g1 ++ d1).length - 1) X) hg1 hd1 hn1 with
      ⟨hf, hc⟩ | ⟨_, e, hc⟩
    · have hw := (wrapInt_eq_iff bits hb _).mpr hf
      have := doScanf_low bits _ _ _ (hs.trans hc)
      rw [hw] at this
      exact this
    · left
      exact doScanf_first_error bits _ e (hs.trans hc)

theorem doScanf_signed (bits : Nat) (hb : bits = 32 ∨ bits = 64) (g1 d1 g2 d2 : Str) (nl : Bool)
    (hg1 : IsSignOpt g1) (hd1 : IsDigits d1) (hn1 : d1 ≠ [])
    (hg2 : IsSignOpt g2) (hd2 : IsDigits d2) (hn2 : d2 ≠ []) :
    ((fitsInt bits (signedVal g1 d1) && fitsInt bits (signedVal g2 d2)) = true ∧
        doScanf bits (g1 ++ d1 ++ '-' :: (g2 ++ d2 ++ optNewline nl)) =
          ⟨2, none, signedVal g1 d1, signedVal g2 d2⟩) ∨
      ((fitsInt bits (signedVal g1 d1) && fitsInt bits (signedVal g2 d2)) = false ∧
        ((doScanf bits (g1 ++ d1 ++ '-' :: (g2 ++ d2 ++ optNewline nl))).n != 2 ||
          (doScanf bits (g1 ++ d1 ++ '-' :: (g2 ++ d2 ++ optNewline nl))).err != none)
            = true) := by
  have hs1 := scanInt_signed bits g1 d1 ('-' :: (g2 ++ d2 ++ optNewline nl)) hg1 hd1 hn1
    (peek_minus _)
  have hs2 := scanInt_signed bits g2 d2 (optNewline nl) hg2 hd2 hn2 (peek_optNewline nl)
  rcases convertToken_signed bits hb g1 d1 ('-' :: (g2 ++ d2 ++ optNewline nl)) hg1 hd1 hn1 with
    ⟨hf1, hc1⟩ | ⟨hf1, e, hc1⟩
  · rcases convertToken_signed bits hb g2 d2 (optNewline nl) hg2 hd2 hn2 with
      ⟨hf2, hc2⟩ | ⟨hf2, e, hc2⟩
    · left
      refine ⟨by rw [hf1, hf2]; rfl, ?_⟩
      have hw1 := (wrapInt_eq_iff bits hb _).mpr hf1
      have hw2 := (wrapInt_eq_iff bits hb _).mpr hf2
      rw [doScanf_eq, hs1, hc1]
      simp only [advanceLiteral, bne_self_eq_false, Bool.false_eq_true, if_false, hs2, hc2,
        advanceNewline_optNewline, hw1, hw2]
    · right
      refine ⟨by rw [hf1, hf2]; rfl, ?_⟩
      rw [doScanf_eq, hs1, hc1]
      simp only [advanceLiteral, bne_self_eq_false, Bool.false_eq_true, if_false, hs2, hc2]
      rfl
  · right
    refine ⟨by rw [hf1]; rfl, ?_⟩
    exact doScanf_first_error bits _ e (hs1.trans hc1)

theorem isDigits_replicate_zero (n : Nat) : IsDigits (List.replicate n '0') := by
  intro c hc
  rw [List.eq_of_mem_replicate hc]
  decide

theorem Sscanf_fails_zeros (bits : Nat) (rest : Str) :
    ((Sscanf bits (List.replicate hugeWid '0' ++ rest)).n != 2 ||
      (Sscanf bits (List.replicate hugeWid '0' ++ rest)).err != none) = true := by
  unfold Sscanf
  rw [List.take_append_of_le_length (by rw [List.length_replicate]),
    List.take_of_length_le (by rw [List.length_replicate])]
  exact doScanf_fails_digits_only bits _ (isDigits_replicate_zero _)

/-! ## The claims -/

/-- C1, the failing input: on "0--3" the second `%d` reads the signed number -3, and
`parseCPUs` succeeds with the count -2, which `FindPossibleCPUs` returns when the file holds
that text; on "0--1" the count is 0; on "0-9223372036854775807" (and on "0-2147483647" where
`int` has 32 bits) the sum `high + 1` wraps around to the least integer. -/
theorem parseCPUs_count_not_positive :
    parseCPUs 64 "0--3".toList = (-2, none) ∧ parseCPUs 32 "0--3".toList = (-2, none) ∧
      FindPossibleCPUs 64 (hostWithContent "0--3\n".toList) = (-2, none) ∧
      parseCPUs 64 "0--1".toList = (0, none) ∧
      parseCPUs 64 "0-9223372036854775807".toList = (-9223372036854775808, none) ∧
      parseCPUs 32 "0-2147483647".toList = (-2147483648, none) := by
  decide

/-- C2: for every natural number `high` such that `high + 1` fits a Go `int`, `parseCPUs`
applied to "0-" followed by the decimal digits of `high`, with or without one trailing
newline, succeeds and returns exactly `high + 1`. -/
theorem parseCPUs_zero_to_high (intSize : Nat) (hsize : intSize = 32 ∨ intSize = 64)
    (high : Nat) (hfit : high + 1 < 2 ^ (intSize - 1)) (nl : Bool) :
    parseCPUs intSize ("0-".toList ++ decimal high ++ optNewline nl) = ((high : Int) + 1, none) := by
  have hspec : "0-".toList ++ decimal high ++ optNewline nl =
      ['0'] ++ '-' :: (decimal high ++ optNewline nl) := by
    simp
  have htrim : (Trim ("0-".toList ++ decimal high ++ optNewline nl) "\n".toList == "0".toList)
      = false :=
    Trim_ne_zero_of_mem '-' _ (by simp) (by decide) (by decide)
  have hv1 : digitsVal 0 ['0'] < 2 ^ (intSize - 1) := by
    rcases hsize with rfl | rfl <;> decide
  have hv2 : digitsVal 0 (decimal high) < 2 ^ (intSize - 1) := by
    rw [digitsVal_decimal]; omega
  have hscan := doScanf_range_ok intSize hsize ['0'] (decimal high) (optNewline nl)
    isDigits_zero (by simp) (decimal_isDigits high) (decimal_ne_nil high) (peek_optNewline nl)
    hv1 hv2
  rw [advanceNewline_optNewline, digitsVal_decimal] at hscan
  have hw : wrapInt intSize ((high : Int) + 1) = (high : Int) + 1 := by
    have := wrapInt_natCast intSize hsize (high + 1) hfit
    simpa using this
  have hshort : ("0-".toList ++ decimal high ++ optNewline nl).length ≤ hugeWid := by
    have h1 := fits_length intSize hsize high (by omega)
    have h2 := optNewline_length nl
    have h3 : hugeWid = 1073741824 := by norm_num [hugeWid]
    have h4 : "0-".toList.length = 2 := rfl
    simp only [List.length_append, h4]
    omega
  simp only [parseCPUs, htrim]
  rw [Sscanf_of_short intSize _ hshort]
  simp only [hspec, hscan]
  simp [digitsVal, hw]

/-- Witness of C2: `parseCPUs("0-3")` is 4. -/
theorem parseCPUs_zero_to_high_witness : parseCPUs 64 "0-3".toList = (4, none) :=
  parseCPUs_zero_to_high 64 (Or.inr rfl) 3 (by norm_num) false

/-- C3: every input that, once its trailing newline characters are removed, is exactly
"0" makes `parseCPUs` succeed with 1. -/
theorem parseCPUs_single_zero (intSize : Nat) (spec : Str)
    (h : spec.rdropWhile (fun r => r == '\n') = "0".toList) :
    parseCPUs intSize spec = (1, none) := by
  have hfun : (fun r => "\n".toList.contains r) = fun r => r == '\n' := by
    funext r
    show List.elem r ['\n'] = (r == '\n')
    rw [List.elem]
    cases r == '\n' <;> rfl
  have ht : Trim spec "\n".toList = "0".toList := by
    unfold Trim
    rw [hfun, h]
    decide
  simp only [parseCPUs, ht, beq_self_eq_true, if_true]

/-- Witness of C3: `parseCPUs("0")` and `parseCPUs("0\n")` are 1. -/
theorem parseCPUs_single_zero_witness :
    parseCPUs 64 "0".toList = (1, none) ∧ parseCPUs 64 "0\n".toList = (1, none) :=
  ⟨parseCPUs_single_zero 64 "0".toList (by decide),
    parseCPUs_single_zero 64 "0\n".toList (by decide)⟩

/-- C4, counterexample: the input "1-99999999999999999999" has the form "low-high" with
`low` not 0, and `parseCPUs` fails on it with the error "invalid format: <spec>", not with
"CPU spec doesn't start at zero: <spec>": the scan of `high` overflows first. The same
happens on "1-3" written with 2^30 leading zeros, where both numbers fit a Go `int`: the
scan stops at its limit of 2^30 runes, before the '-'. -/
theorem parseCPUs_low_nonzero_counterexample :
    parseCPUs 64 (decimal 1 ++ "-".toList ++ decimal 99999999999999999999 ++ optNewline false) =
        (0, some (.errorString "invalid format: 1-99999999999999999999".toList)) ∧
      parseCPUs 64 (decimal 1 ++ "-".toList ++ decimal 99999999999999999999 ++ optNewline false) ≠
        (0, some (.errorString "CPU spec doesn't start at zero: 1-99999999999999999999".toList)) ∧
      parseCPUs 64 (List.replicate hugeWid '0' ++ "1-3".toList) =
        (0, some (.errorString
          ("invalid format: ".toList ++ (List.replicate hugeWid '0' ++ "1-3".toList)))) :=
  ⟨by decide, by decide,
    parseCPUs_invalid 64 _
      (Trim_ne_zero_of_mem '-' _ (by simp) (by decide) (by decide))
      (Sscanf_fails_zeros 64 _)⟩

/-- C4, amended: for every input "low-high" (two decimal integers, each an optional sign
and a non-empty run of digits, separated by '-', optional trailing newline) in which `low`
is not 0, `parseCPUs` fails with count 0 and one of the errors
"CPU spec doesn't start at zero: <spec>" and "invalid format: <spec>", and never returns
`high + 1`; when the input has at most 2^30 runes (the limit of the scan), the error is
"CPU spec doesn't start at zero: <spec>" if `low` and `high` both fit a Go `int`, and
"invalid format: <spec>" if one of them does not. -/
theorem parseCPUs_low_nonzero (intSize : Nat) (hsize : intSize = 32 ∨ intSize = 64)
    (g1 d1 g2 d2 : Str) (nl : Bool)
    (hg1 : IsSignOpt g1) (hd1 : IsDigits d1) (hn1 : d1 ≠ [])
    (hg2 : IsSignOpt g2) (hd2 : IsDigits d2) (hn2 : d2 ≠ [])
    (hlow : signedVal g1 d1 ≠ 0) :
    (parseCPUs intSize (signedRange g1 d1 g2 d2 nl) =
          (0, some (.errorString
            ("CPU spec doesn't start at zero: ".toList ++ signedRange g1 d1 g2 d2 nl))) ∨
        parseCPUs intSize (signedRange g1 d1 g2 d2 nl) =
          (0, some (.errorString ("invalid format: ".toList ++ signedRange g1 d1 g2 d2 nl)))) ∧
      ((signedRange g1 d1 g2 d2 nl).length ≤ hugeWid →
        parseCPUs intSize (signedRange g1 d1 g2 d2 nl) =
          (0, some (.errorString
            ((if fitsInt intSize (signedVal g1 d1) && fitsInt intSize (signedVal g2 d2)
              then "CPU spec doesn't start at zero: ".toList else "invalid format: ".toList) ++
              signedRange g1 d1 g2 d2 nl)))) := by
  rw [signedRange_eq]
  have htrim : (Trim (g1 ++ d1 ++ '-' :: (g2 ++ d2 ++ optNewline nl)) "\n".toList
      == "0".toList) = false :=
    Trim_ne_zero_of_mem '-' _ (by simp) (by decide) (by decide)
  constructor
  · rcases Sscanf_signed_low intSize hsize g1 d1 (g2 ++ d2 ++ optNewline nl) hg1 hd1 hn1 with
      hf | ⟨hi, hs⟩
    · exact Or.inr (parseCPUs_invalid _ _ htrim hf)
    · exact Or.inl (parseCPUs_not_zero _ _ _ hi htrim hs hlow)
  · intro hshort
    have hS := Sscanf_of_short intSize _ hshort
    rcases doScanf_signed intSize hsize g1 d1 g2 d2 nl hg1 hd1 hn1 hg2 hd2 hn2 with
      ⟨hf, hs⟩ | ⟨hf, hs⟩
    · rw [if_pos hf]
      exact parseCPUs_not_zero _ _ _ _ htrim (hS.trans hs) hlow
    · rw [hf, if_neg Bool.false_ne_true]
      apply parseCPUs_invalid _ _ htrim
      rw [hS]
      exact hs

/-- Witness of C4: `parseCPUs` fails with "CPU spec doesn't start at zero: <spec>" on
"1-3", "-1-3", "+1-3", "01-3\n" and "1--3", and with "invalid format: <spec>" on
"-1-2147483648" where `int` has 32 bits. -/
theorem parseCPUs_low_nonzero_witness :
    parseCPUs 64 "1-3".toList =
        (0, some (.errorString "CPU spec doesn't start at zero: 1-3".toList)) ∧
      parseCPUs 64 "-1-3".toList =
        (0, some (.errorString "CPU spec doesn't start at zero: -1-3".toList)) ∧
      parseCPUs 64 "+1-3".toList =
        (0, some (.errorString "CPU spec doesn't start at zero: +1-3".toList)) ∧
      parseCPUs 64 "01-3\n".toList =
        (0, some (.errorString "CPU spec doesn't start at zero: 01-3\n".toList)) ∧
      parseCPUs 32 "1--3".toList =
        (0, some (.errorString "CPU spec doesn't start at zero: 1--3".toList)) ∧
      parseCPUs 32 "-1-2147483648".toList =
        (0, some (.errorString "invalid format: -1-2147483648".toList)) :=
  ⟨(parseCPUs_low_nonzero 64 (Or.inr rfl) [] "1".toList [] "3".toList false
      (Or.inl rfl) (by unfold IsDigits; decide) (by decide)
      (Or.inl rfl) (by unfold IsDigits; decide) (by decide) (by decide)).2 (by decide),
    (parseCPUs_low_nonzero 64 (Or.inr rfl) "-".toList "1".toList [] "3".toList false
      (Or.inr (Or.inr rfl)) (by unfold IsDigits; decide) (by decide)
      (Or.inl rfl) (by unfold IsDigits; decide) (by decide) (by decide)).2 (by decide),
    (parseCPUs_low_nonzero 64 (Or.inr rfl) "+".toList "1".toList [] "3".toList false
      (Or.inr (Or.inl rfl)) (by unfold IsDigits; decide) (by decide)
      (Or.inl rfl) (by unfold IsDigits; decide) (by decide) (by decide)).2 (by decide),
    (parseCPUs_low_nonzero 64 (Or.inr rfl) [] "01".toList [] "3".toList true
      (Or.inl rfl) (by unfold IsDigits; decide) (by decide)
      (Or.inl rfl) (by unfold IsDigits; decide) (by decide) (by decide)).2 (by decide),
    (parseCPUs_low_nonzero 32 (Or.inl rfl) [] "1".toList "-".toList "3".toList false
      (Or.inl rfl) (by unfold IsDigits; decide) (by decide)
      (Or.inr (Or.inr rfl)) (by unfold IsDigits; decide) (by decide) (by decide)).2 (by decide),
    (parseCPUs_low_nonzero 32 (Or.inl rfl) "-".toList "1".toList [] "2147483648".toList false
      (Or.inr (Or.inr rfl)) (by unfold IsDigits; decide) (by decide)
      (Or.inl rfl) (by unfold IsDigits; decide) (by decide) (by decide)).2 (by decide)⟩

/-- C5: a kernel bitmap list with two or more comma-separated entries (single numbers or
ranges), whatever follows it (nothing, a newline, more text), makes `parseCPUs` fail with
the error "invalid format: <spec>" and count 0, also when the first range starts at 0. -/
theorem parseCPUs_multi_range (intSize : Nat) (r1 r2 : Region) (rs : List Region) (tail : Str) :
    parseCPUs intSize (bitmapList (r1 :: r2 :: rs) ++ tail) =
      (0, some (.errorString ("invalid format: ".toList ++ (bitmapList (r1 :: r2 :: rs) ++ tail)))) := by
  apply parseCPUs_invalid
  · exact Trim_ne_zero_of_mem ',' _ (by simp [bitmapList]) (by decide) (by decide)
  · cases r1 with
    | single n =>
      have h := Sscanf_fails_after_number intSize (decimal n) ',' (bitmapList (r2 :: rs) ++ tail)
        (decimal_isDigits n) (decimal_ne_nil n) (by decide) (by decide)
      simpa [bitmapList, Region.render] using h
    | range lo hi =>
      have h := Sscanf_fails_after_range intSize lo hi ','
        (bitmapList (r2 :: rs) ++ tail) (by decide) (by decide)
      simpa [bitmapList, Region.render] using h

/-- Witness of C5: "0-3,8-11", "0-1,4-5\n" and "0,2" are rejected. -/
theorem parseCPUs_multi_range_witness :
    parseCPUs 64 "0-3,8-11".toList =
        (0, some (.errorString "invalid format: 0-3,8-11".toList)) ∧
      parseCPUs 64 "0-1,4-5\n".toList =
        (0, some (.errorString "invalid format: 0-1,4-5\n".toList)) ∧
      parseCPUs 64 "0,2".toList = (0, some (.errorString "invalid format: 0,2".toList)) :=
  ⟨parseCPUs_multi_range 64 (.range 0 3) (.range 8 11) [] [],
    parseCPUs_multi_range 64 (.range 0 1) (.range 4 5) [] "\n".toList,
    parseCPUs_multi_range 64 (.single 0) (.single 2) [] []⟩

/-- C7: with the environment as explicit input: when `os.Stat` of the possible-CPUs file
fails (the file is absent), `FindPossibleCPUs` returns exactly the result of `getCPUsNproc`,
which is `strconv.Atoi` of the command's output with its newlines trimmed, so that an output
of the decimal digits of `n` and a newline gives `n` ("8\n" gives 8); and when the file is
present, `FindPossibleCPUs` returns the result of `parseCPUsFromFile`, the same on two hosts
that differ only in the outcome of the command. -/
theorem FindPossibleCPUs_paths (intSize : Nat) (hsize : intSize = 32 ∨ intSize = 64)
    (host : Host) :
    (∀ e, host.Stat possibleCPUsFile = some e →
        FindPossibleCPUs intSize host = getCPUsNproc intSize host) ∧
      (∀ output, host.nprocOutput = (output, none) →
        getCPUsNproc intSize host = Atoi intSize (Trim output "\n".toList)) ∧
      (∀ n : Nat, n < 2 ^ (intSize - 1) → host.nprocOutput = (decimal n ++ "\n".toList, none) →
        getCPUsNproc intSize host = ((n : Int), none)) ∧
      (host.Stat possibleCPUsFile = none →
        FindPossibleCPUs intSize host = parseCPUsFromFile intSize host possibleCPUsFile) ∧
      (∀ host2 : Host, host.Stat possibleCPUsFile = none → host2.Stat = host.Stat →
        host2.ReadFile = host.ReadFile →
        FindPossibleCPUs intSize host2 = FindPossibleCPUs intSize host) := by
  refine ⟨?_, ?_, ?_, ?_, ?_⟩
  · intro e he
    simp only [FindPossibleCPUs, he]
  · intro output ho
    simp only [getCPUsNproc, ho]
  · intro n hn ho
    simp only [getCPUsNproc, ho]
    rw [Trim_digits_newline _ (decimal_isDigits n),
      Atoi_digits intSize hsize _ (decimal_isDigits n) (decimal_ne_nil n)
        (by rw [digitsVal_decimal]; exact hn),
      digitsVal_decimal]
  · intro hs
    simp only [FindPossibleCPUs, hs]
  · intro host2 hs h1 h2
    simp only [FindPossibleCPUs, h1, hs, parseCPUsFromFile, h2]

/-- Witness of C7: without the file and with "8\n" printed by the command, the result is 8. -/
theorem FindPossibleCPUs_paths_witness : FindPossibleCPUs 64 hostWithoutFile = (8, none) :=
  ((FindPossibleCPUs_paths 64 (Or.inr rfl) hostWithoutFile).1 _ rfl).trans
    ((FindPossibleCPUs_paths 64 (Or.inr rfl) hostWithoutFile).2.2.1 8 (by norm_num) rfl)

/-- C8: failures on the file path are returned: when the read succeeds and `parseCPUs` fails
on the content with error `e`, `parseCPUsFromFile` returns count 0 and the error
"can't parse <path>: <e>", and so does `FindPossibleCPUs` when the file is present, whatever
the command would print; and `parseCPUsFromFile` succeeds with `n` exactly when the read
succeeds and `parseCPUs` succeeds with `n` on the content. -/
theorem parseCPUsFromFile_result (intSize : Nat) (host : Host) (path : Str) :
    (∀ content c e, host.ReadFile path = (content, none) →
        parseCPUs intSize content = (c, some e) →
        parseCPUsFromFile intSize host path =
          (0, some (.errorStringV ("can't parse ".toList ++ path ++ ": ".toList) e))) ∧
      (∀ content c e, host.Stat possibleCPUsFile = none →
        host.ReadFile possibleCPUsFile = (content, none) →
        parseCPUs intSize content = (c, some e) →
        FindPossibleCPUs intSize host =
          (0, some (.errorStringV
            ("can't parse ".toList ++ possibleCPUsFile ++ ": ".toList) e))) ∧
      (∀ n, parseCPUsFromFile intSize host path = (n, none) ↔
        ∃ content, host.ReadFile path = (content, none) ∧
          parseCPUs intSize content = (n, none)) := by
  refine ⟨?_, ?_, ?_⟩
  · intro content c e hr hp
    simp only [parseCPUsFromFile, hr, hp]
  · intro content c e hs hr hp
    simp only [FindPossibleCPUs, hs, parseCPUsFromFile, hr, hp]
  · intro n
    constructor
    · intro h
      rcases hr : host.ReadFile path with ⟨content, _ | err⟩
      · refine ⟨content, rfl, ?_⟩
        rcases hp : parseCPUs intSize content with ⟨m, _ | e⟩
        · simp only [parseCPUsFromFile, hr, hp] at h
          rw [h]
        · simp only [parseCPUsFromFile, hr, hp] at h
          simp at h
      · simp only [parseCPUsFromFile, hr] at h
        simp at h
    · rintro ⟨content, hr, hp⟩
      simp only [parseCPUsFromFile, hr, hp]

/-- Witness of C8: with the content "0-3,8-11\n" in the file, `FindPossibleCPUs` returns
the error "can't parse /sys/devices/system/cpu/possible: invalid format: 0-3,8-11\n" and
not the 8 of the command; with the content "0-3\n" it returns 4. -/
theorem parseCPUsFromFile_result_witness :
    FindPossibleCPUs 64 (hostWithContent "0-3,8-11\n".toList) =
        (0, some (.errorStringV "can't parse /sys/devices/system/cpu/possible: ".toList
          (.errorString "invalid format: 0-3,8-11\n".toList))) ∧
      parseCPUsFromFile 64 (hostWithContent "0-3\n".toList) possibleCPUsFile = (4, none) :=
  ⟨(parseCPUsFromFile_result 64 (hostWithContent "0-3,8-11\n".toList) possibleCPUsFile).2.1
      "0-3,8-11\n".toList 0 (.errorString "invalid format: 0-3,8-11\n".toList) rfl rfl
      (by decide),
    ((parseCPUsFromFile_result 64 (hostWithContent "0-3\n".toList) possibleCPUsFile).2.2 4).mpr
      ⟨"0-3\n".toList, rfl, by decide⟩⟩

/-- C9, the failing input: on a host where `os.Stat` of the possible-CPUs file fails with
EACCES (an error other than "file does not exist") and `nproc --all` prints "8",
`FindPossibleCPUs` drops the failure and returns the command's count 8 with no error;
whereas on a host where `os.Stat` succeeds and `os.ReadFile` fails with EIO, it returns
count 0 and that error. -/
theorem FindPossibleCPUs_stat_error_dropped :
    hostDenied.Stat possibleCPUsFile = some (.osError 13 "permission denied".toList) ∧
      hostDenied.nprocOutput = ("8\n".toList, none) ∧
      FindPossibleCPUs 64 hostDenied = (8, none) ∧
      FindPossibleCPUs 32 hostDenied = (8, none) ∧
      hostUnreadable.Stat possibleCPUsFile = none ∧
      FindPossibleCPUs 64 hostUnreadable =
        (0, some (.osError 5 "input/output error".toList)) := by
  decide

/-- C10: one trailing newline does not change the outcome of `parseCPUs`: for every string
`s` without a newline, `parseCPUs(s ++ "\n")` and `parseCPUs(s)` return the same count, and
one succeeds exactly when the other does. -/
theorem parseCPUs_trailing_newline (intSize : Nat) (s : Str) (hs : '\n' ∉ s) :
    (parseCPUs intSize (s ++ ['\n'])).1 = (parseCPUs intSize s).1 ∧
      ((parseCPUs intSize (s ++ ['\n'])).2 = none ↔ (parseCPUs intSize s).2 = none) := by
  unfold parseCPUs
  rw [Trim_append_newline]
  by_cases ht : (Trim s "\n".toList == "0".toList) = true
  · rw [if_pos ht, if_pos ht]
    exact ⟨rfl, Iff.rfl⟩
  · rw [if_neg ht, if_neg ht]
    rcases Sscanf_append_nl intSize s hs with ⟨h1, h2⟩ | ⟨lo, hi, h1, h2⟩
    · simp only [h1, h2, if_true]
      simp
    · simp only [h1, h2]
      by_cases hl : (lo != 0) = true
      · simp [hl]
      · simp [hl]

/-- Witness of C10: "0-3" and "0-3\n" both give 4, " 0-3x" and " 0-3x\n" both fail. -/
theorem parseCPUs_trailing_newline_witness :
    ((parseCPUs 64 ("0-3".toList ++ ['\n'])).1 = (parseCPUs 64 "0-3".toList).1 ∧
      ((parseCPUs 64 ("0-3".toList ++ ['\n'])).2 = none ↔ (parseCPUs 64 "0-3".toList).2 = none)) ∧
    (parseCPUs 64 "0-3\n".toList = (4, none) ∧ parseCPUs 64 "0-3".toList = (4, none)) :=
  ⟨parseCPUs_trailing_newline 64 "0-3".toList (by decide), by decide⟩

/-- C6, counterexample: inputs that are neither "0" nor digits, '-' and digits followed by
newlines only, and on which `parseCPUs` succeeds: a leading space, a sign, a space after the
'-', a space after the range, text after a newline, a newline in front of "0". -/
theorem parseCPUs_rejects_counterexample :
    parseCPUs 64 " 0-3".toList = (4, none) ∧ parseCPUs 64 "+0-3".toList = (4, none) ∧
      parseCPUs 64 "0- 3".toList = (4, none) ∧ parseCPUs 64 "0-3 ".toList = (4, none) ∧
      parseCPUs 64 "0-3\nx".toList = (4, none) ∧ parseCPUs 64 "\n0".toList = (1, none) := by
  decide

/-- C6, amended: `parseCPUs` fails, with count 0 and the error "invalid format: <spec>", on
every input that is not "0" between newline characters only and whose first `hugeWid` runes
(all that the scan reads; the whole input when it is shorter) are not of the form of the scan
(blanks, optional sign, digits, '-', blanks, optional sign, digits, blanks, and then the end
or a newline followed by anything); in particular on the empty input, on every input whose
leading digits are followed by a character other than a digit, '-' or a newline (a space,
for instance), and on every input "D1-D2" followed on its line, within reach of the scan, by
a character that is neither a digit nor a space (further text after the range). -/
theorem parseCPUs_rejects (intSize : Nat) (spec : Str) :
    (¬ IsZeroForm spec → ¬ IsRangeForm (spec.take hugeWid) →
        parseCPUs intSize spec =
          (0, some (.errorString ("invalid format: ".toList ++ spec)))) ∧
      parseCPUs intSize [] = (0, some (.errorString "invalid format: ".toList)) ∧
      (∀ (d1 : Str) (c : Char) (rest : Str), IsDigits d1 → d1 ≠ [] →
        decimalDigits.contains c = false → c ≠ '-' → c ≠ '\n' →
        parseCPUs intSize (d1 ++ c :: rest) =
          (0, some (.errorString ("invalid format: ".toList ++ (d1 ++ c :: rest))))) ∧
      (∀ (d1 d2 : Str) (c : Char) (rest : Str), IsDigits d1 → d1 ≠ [] → IsDigits d2 → d2 ≠ [] →
        decimalDigits.contains c = false → isSpace c = false →
        d1.length + d2.length + 1 < hugeWid →
        parseCPUs intSize (d1 ++ '-' :: (d2 ++ c :: rest)) =
          (0, some (.errorString
            ("invalid format: ".toList ++ (d1 ++ '-' :: (d2 ++ c :: rest)))))) := by
  refine ⟨?_, rfl, ?_, ?_⟩
  · intro hzero hrange
    apply parseCPUs_invalid
    · by_contra h
      apply hzero
      apply Trim_eq_zero
      simpa using h
    · exact doScanf_fails_of_not_rangeForm intSize _ hrange
  · intro d1 c rest hd1 hn1 hc1 hc2 hc3
    apply parseCPUs_invalid
    · apply Trim_ne_zero_of_mem c _ (by simp) hc3
      intro h
      rw [h] at hc1
      exact absurd hc1 (by decide)
    · exact Sscanf_fails_after_number intSize d1 c rest hd1 hn1 hc1 hc2
  · intro d1 d2 c rest hd1 hn1 hd2 hn2 hc1 hc2 hlen
    apply parseCPUs_invalid
    · exact Trim_ne_zero_of_mem '-' _ (by simp) (by decide) (by decide)
    · exact Sscanf_fails_after_range_short intSize d1 d2 c rest hd1 hn1 hd2 hn2 hc1 hc2 hlen

/-- Witness of C6: `parseCPUs("")` fails; so do "0 -3" (a space in front of the '-'),
"0-3x" (text right after the range) and "0-" (no second number). -/
theorem parseCPUs_rejects_witness :
    parseCPUs 64 [] = (0, some (.errorString "invalid format: ".toList)) ∧
      parseCPUs 64 "0 -3".toList = (0, some (.errorString "invalid format: 0 -3".toList)) ∧
      parseCPUs 64 "0-3x".toList = (0, some (.errorString "invalid format: 0-3x".toList)) ∧
      parseCPUs 64 "0-".toList = (0, some (.errorString "invalid format: 0-".toList)) :=
  ⟨(parseCPUs_rejects 64 []).1
      (by rintro ⟨a, b, h⟩; simp at h)
      (by rintro ⟨b1, g1, d1, b2, g2, d2, b3, rest, h, -⟩; simp at h),
    (parseCPUs_rejects 64 []).2.2.1 "0".toList ' ' "-3".toList isDigits_zero (by decide)
      (by decide) (by decide) (by decide),
    (parseCPUs_rejects 64 []).2.2.2 "0".toList "3".toList 'x' [] isDigits_zero (by decide)
      (by intro c hc; simp at hc; subst hc; decide) (by decide) (by decide) (by decide)
      (by decide),
    by decide⟩

end Linux
